import Mathlib

/-!
Verification of the rumi repository's Agent Loop + Skill Resolution +
Session Concurrency core against its natural-language specification.

The Python sources are shallowly embedded as executable Lean functions:

* `AgentLoop.run` (src/rumi/agent/loop.py): the think/act/observe loop with
  its two circuit breakers.  The language model is an oracle
  `Nat → ModelTurn` giving, per turn, the assistant content and the list of
  requested tool calls; each scripted call carries the success flag that
  `ToolRegistry.dispatch` would return for it (the loop's control flow only
  reads `result.success`).  The run result is instrumented with a
  `dispatched` trace recording the calls that actually reached the registry.
* `ToolRegistry.dispatch` (src/rumi/tools/registry.py): exceptions are
  modelled by `Except String ToolResult` (`.error` = a raised exception that
  the caller sees); the returned trace lists the tools whose `execute` ran.
* `SkillManager` (src/rumi/skills/manager.py) registry / mtime / path maps
  with `register`, `unregister`, `clear_cache`, discovery as register
  sequences, and `refresh_changed` against a file-system oracle.
* `SessionManager` (src/miniclaw/session/manager.py): sessions, per-chat
  locks, busy set and the persisted-to-disk map as association lists; wall
  clock passed explicitly; the sandbox destroy step of `destroy_session` may
  fail according to an oracle (a raised exception).

JSON dicts are modelled as association lists from `String` keys to `String`
values; `json.dumps(..., sort_keys=True)` becomes key-deduplication (last
occurrence wins, as in `json.loads`) followed by sorting on keys.
-/

/-! ## Association-list maps (Python dict operations used by the sources) -/

/-- Look up the value bound to key `k` (first binding wins, as in a dict
whose keys are unique). -/
def getk {α : Type} (l : List (String × α)) (k : String) : Option α :=
  match l with
  | [] => none
  | (k', v) :: rest => if k' = k then some v else getk rest k

/-- Bind key `k` to `v`: replace the existing binding in place, else append
(the insertion-order behaviour of a Python dict). -/
def setk {α : Type} (l : List (String × α)) (k : String) (v : α) :
    List (String × α) :=
  match l with
  | [] => [(k, v)]
  | (k', v') :: rest =>
      if k' = k then (k, v) :: rest else (k', v') :: setk rest k v

/-- Delete every binding of key `k` (`del d[k]` / `dict.pop`). -/
def remk {α : Type} (l : List (String × α)) (k : String) : List (String × α) :=
  l.filter (fun p => p.1 ≠ k)

theorem getk_setk_self {α : Type} (l : List (String × α)) (k : String) (v : α) :
    getk (setk l k v) k = some v := by
  induction l with
  | nil => simp [setk, getk]
  | cons p rest ih =>
      obtain ⟨k', v'⟩ := p
      by_cases h : k' = k <;> simp [setk, getk, h, ih]

theorem getk_setk_of_ne {α : Type} (l : List (String × α)) (k k' : String)
    (v : α) (h : k' ≠ k) : getk (setk l k v) k' = getk l k' := by
  have hk : ¬ k = k' := fun hkk => h hkk.symm
  induction l with
  | nil => simp [setk, getk, hk]
  | cons p rest ih =>
      obtain ⟨k₀, v₀⟩ := p
      by_cases h₀ : k₀ = k
      · subst h₀
        simp [setk, getk, hk]
      · simp only [setk, if_neg h₀, getk]
        by_cases h₁ : k₀ = k' <;> simp [h₁, ih]

theorem setk_setk_self {α : Type} (l : List (String × α)) (k : String)
    (v w : α) : setk (setk l k v) k w = setk l k w := by
  induction l with
  | nil => simp [setk]
  | cons p rest ih =>
      obtain ⟨k', v'⟩ := p
      by_cases h : k' = k <;> simp [setk, h, ih]

theorem getk_remk_self {α : Type} (l : List (String × α)) (k : String) :
    getk (remk l k) k = none := by
  induction l with
  | nil => simp [remk, getk]
  | cons p rest ih =>
      obtain ⟨k', v'⟩ := p
      by_cases h : k' = k
      · subst h
        simpa [remk, getk] using ih
      · simpa [remk, getk, h] using ih

theorem getk_remk_of_ne {α : Type} (l : List (String × α)) (k k' : String)
    (h : k' ≠ k) : getk (remk l k) k' = getk l k' := by
  have hk : ¬ k = k' := fun hkk => h hkk.symm
  induction l with
  | nil => simp [remk, getk]
  | cons p rest ih =>
      obtain ⟨k₀, v₀⟩ := p
      by_cases h₀ : k₀ = k
      · subst h₀
        simpa [remk, getk, hk, List.filter_cons] using ih
      · have ih' : getk (List.filter (fun p => !decide (p.1 = k)) rest) k'
            = getk rest k' := by simpa [remk] using ih
        by_cases h₁ : k₀ = k' <;>
          simp [remk, getk, h, h₀, h₁, List.filter_cons, ih']

theorem getk_isSome_of_mem {α : Type} (l : List (String × α)) (p : String × α)
    (hmem : p ∈ l) : (getk l p.1).isSome := by
  induction l with
  | nil => cases hmem
  | cons q rest ih =>
      obtain ⟨k₀, v₀⟩ := q
      rcases List.mem_cons.mp hmem with h | h
      · subst h; simp [getk]
      · by_cases h₀ : k₀ = p.1 <;> simp [getk, h₀, ih h]

/-! ## Agent loop (src/rumi/agent/loop.py)

Canonical call signatures.  `_check_repeated_call` serialises
`{"name": tool_name, "args": parsed_args}` with `json.dumps(sort_keys=True)`
and compares the strings; two such strings are equal exactly when the names
are equal and the parsed argument dicts are equal.  A parsed dict is the
key-deduplicated (last occurrence wins) argument list, and `sort_keys`
renders it in key order, so the canonical form is dedup-then-sort. -/

/-- Parsed JSON argument payload: key/value pairs in source order. -/
def Args : Type := List (String × String)

instance : DecidableEq Args := by
  unfold Args; infer_instance

/-- Build the Python dict from a JSON object's key/value pairs: first-key
order, later duplicate keys overwrite (as `json.loads` does). -/
def buildDict (args : Args) : List (String × String) :=
  args.foldl (fun d p => setk d p.1 p.2) []

/-- Lexicographic comparison of key character lists (by code point, the
order `json.dumps(sort_keys=True)` uses for ASCII keys). -/
def keyLe : List Char → List Char → Bool
  | [], _ => true
  | _ :: _, [] => false
  | a :: as, b :: bs =>
      if a.toNat < b.toNat then true
      else if b.toNat < a.toNat then false
      else keyLe as bs

/-- Lexicographic string comparison used for key sorting. -/
def strLe (s t : String) : Bool := keyLe s.data t.data

/-- Insert an entry into a list sorted by key. -/
def insertByKey (p : String × String) :
    List (String × String) → List (String × String)
  | [] => [p]
  | q :: rest =>
      if strLe p.1 q.1 then p :: q :: rest else q :: insertByKey p rest

/-- Render a dict in sorted-key order (the `sort_keys=True` of
`json.dumps`). -/
def sortByKey (l : List (String × String)) : List (String × String) :=
  l.foldr insertByKey []

/-- Canonical form of an argument payload: dedup (last wins), then sort by
key. -/
def canonArgs (args : Args) : List (String × String) :=
  sortByKey (buildDict args)

/-- Canonical signature of a tool call, as compared by
`AgentLoop._check_repeated_call`. -/
def Sig : Type := String × List (String × String)

instance : DecidableEq Sig := by
  unfold Sig; infer_instance

/-- One tool call scripted by the language-model oracle.  `succeeds` is the
`success` flag of the `ToolResult` that `registry.dispatch` returns for this
call (the loop reads nothing else of the result for control flow). -/
structure ScriptCall where
  name : String
  args : Args
  succeeds : Bool
  deriving DecidableEq

/-- Canonical signature of a scripted call. -/
def ScriptCall.sig (c : ScriptCall) : Sig := (c.name, canonArgs c.args)

/-- The `call_record` dict `{"name": ..., "args": ...}` appended to
`tool_calls_log`. -/
structure CallRec where
  name : String
  args : Args
  deriving DecidableEq

def ScriptCall.record (c : ScriptCall) : CallRec := ⟨c.name, c.args⟩

/-- Instrumentation: one dispatched call (it reached
`registry.dispatch`) together with the success of its result. -/
structure DispatchRec where
  name : String
  args : Args
  success : Bool
  deriving DecidableEq

def ScriptCall.drec (c : ScriptCall) : DispatchRec := ⟨c.name, c.args, c.succeeds⟩

/-- One assistant turn as produced by the language model: optional text
content plus the requested tool calls (`[]` = no tool calls). -/
structure ModelTurn where
  content : Option String
  toolCalls : List ScriptCall

/-- Reasons for stopping the agent loop (`StopReason` enum). -/
inductive StopReason where
  | complete
  | maxTurns
  | repeatedCall
  | consecutiveErrors
  deriving DecidableEq

/-- Configuration for the agent loop (`AgentConfig`); the model id and the
skills block do not affect the verified control flow and are omitted. -/
structure AgentConfig where
  maxTurns : Nat
  maxConsecutiveErrors : Nat
  maxRepeatedCalls : Nat
  deriving DecidableEq

/-- Result of running the agent loop (`AgentResult`), instrumented with the
`dispatched` trace. -/
structure AgentResult where
  response : String
  stopReason : StopReason
  turns : Nat
  toolCalls : List CallRec
  dispatched : List DispatchRec
  deriving DecidableEq

/-- Mutable per-run state of `AgentLoop` (`_last_tool_call`,
`_repeated_count`, `_consecutive_errors`), plus the `tool_calls_log` and
`final_response` locals of `run` and the `dispatched` instrumentation. -/
structure LoopState where
  lastToolCall : Option Sig
  repeatedCount : Nat
  consecutiveErrors : Nat
  toolCallsLog : List CallRec
  dispatched : List DispatchRec
  finalResponse : String
  deriving DecidableEq

/-- The state `_reset_state` establishes at the start of `run`. -/
def LoopState.init : LoopState :=
  { lastToolCall := none, repeatedCount := 0, consecutiveErrors := 0,
    toolCallsLog := [], dispatched := [], finalResponse := "" }

/-- Mirror of `AgentLoop._check_repeated_call`: returns whether the breaker
trips, together with the updated state. -/
def AgentLoop.checkRepeatedCall (cfg : AgentConfig) (cr : CallRec)
    (s : LoopState) : Bool × LoopState :=
  let callSig : Sig := (cr.name, canonArgs cr.args)
  if s.lastToolCall = some callSig then
    let s' := { s with repeatedCount := s.repeatedCount + 1 }
    (decide (cfg.maxRepeatedCalls ≤ s'.repeatedCount), s')
  else
    (false, { s with lastToolCall := some callSig, repeatedCount := 1 })

/-- Outcome of processing one (or a batch of) requested tool call(s). -/
inductive StepOut where
  | cont (s : LoopState)
  | stopRepeated (s : LoopState)
  | stopErrors (s : LoopState)
  deriving DecidableEq

/-- Process one requested call, in the order of `run`'s inner loop: append
the call record to the log, run the repeated-call breaker (the in-flight
call is never dispatched when it trips), dispatch, then run the
consecutive-error accounting on the result. -/
def AgentLoop.procCall (cfg : AgentConfig) (c : ScriptCall) (s : LoopState) :
    StepOut :=
  let s0 := { s with toolCallsLog := s.toolCallsLog ++ [c.record] }
  match AgentLoop.checkRepeatedCall cfg c.record s0 with
  | (true, s1) => .stopRepeated s1
  | (false, s1) =>
      let s2 := { s1 with dispatched := s1.dispatched ++ [c.drec] }
      if c.succeeds then
        .cont { s2 with consecutiveErrors := 0 }
      else
        let s3 := { s2 with consecutiveErrors := s2.consecutiveErrors + 1 }
        if cfg.maxConsecutiveErrors ≤ s3.consecutiveErrors then .stopErrors s3
        else .cont s3

/-- Process the calls of one assistant turn strictly in request order,
returning at the first breaker trip. -/
def AgentLoop.processCalls (cfg : AgentConfig) :
    List ScriptCall → LoopState → StepOut
  | [], s => .cont s
  | c :: rest, s =>
      match AgentLoop.procCall cfg c s with
      | .cont s' => AgentLoop.processCalls cfg rest s'
      | .stopRepeated s' => .stopRepeated s'
      | .stopErrors s' => .stopErrors s'

/-- The `for turn in range(max_turns)` loop of `AgentLoop.run`.  `fuel` is
the number of turns still available, `tdone` the number already taken
(invariant of `run`: `tdone + fuel = cfg.maxTurns`). -/
def AgentLoop.runAux (cfg : AgentConfig) (model : Nat → ModelTurn) :
    Nat → Nat → LoopState → AgentResult
  | 0, _, s =>
      { response := if s.finalResponse = "" then "Max turns reached"
                    else s.finalResponse,
        stopReason := .maxTurns, turns := cfg.maxTurns,
        toolCalls := s.toolCallsLog, dispatched := s.dispatched }
  | fuel + 1, tdone, s =>
      let mt := model tdone
      if mt.toolCalls = [] then
        { response := (mt.content).getD "", stopReason := .complete,
          turns := tdone + 1, toolCalls := s.toolCallsLog,
          dispatched := s.dispatched }
      else
        match AgentLoop.processCalls cfg mt.toolCalls s with
        | .cont s' => AgentLoop.runAux cfg model fuel (tdone + 1) s'
        | .stopRepeated s' =>
            { response := "Stopped: repeated tool call detected",
              stopReason := .repeatedCall, turns := tdone + 1,
              toolCalls := s'.toolCallsLog, dispatched := s'.dispatched }
        | .stopErrors s' =>
            { response := "Stopped: " ++ toString cfg.maxConsecutiveErrors
                            ++ " consecutive errors",
              stopReason := .consecutiveErrors, turns := tdone + 1,
              toolCalls := s'.toolCallsLog, dispatched := s'.dispatched }

/-- Mirror of `AgentLoop.run(message, chat_id, history)`: counters are reset
on entry; messages, logging and the memory block do not influence the
verified control flow (the model oracle already accounts for any dependence
of the model on the message list). -/
def AgentLoop.run (cfg : AgentConfig) (model : Nat → ModelTurn) : AgentResult :=
  AgentLoop.runAux cfg model cfg.maxTurns 0 LoopState.init

/-! ## Side conditions on scripted call lists -/

/-- Signature of the last call of `cs`, or `prev` when `cs` is empty. -/
def lastSigOpt (prev : Option Sig) : List ScriptCall → Option Sig
  | [] => prev
  | c :: rest => lastSigOpt (some c.sig) rest

/-- Every call's signature differs from its predecessor's (the previous
turn's last signature being `prev`). -/
def freshChain (prev : Option Sig) : List ScriptCall → Bool
  | [] => true
  | c :: rest => decide (prev ≠ some c.sig) && freshChain (some c.sig) rest

/-- Every scripted call dispatches successfully. -/
def allSucc (cs : List ScriptCall) : Bool := cs.all (·.succeeds)

/-- Every scripted call's dispatch fails. -/
def allFail (cs : List ScriptCall) : Bool := cs.all (fun c => !c.succeeds)

/-- Every call has canonical signature `σ` (identical calls up to JSON key
order). -/
def allSig (σ : Sig) (cs : List ScriptCall) : Bool :=
  cs.all (fun c => decide (c.sig = σ))

/-- Number of trailing failures of a dispatch trace (the quantity the
`_consecutive_errors` counter tracks). -/
def trailFails (l : List DispatchRec) : Nat :=
  l.foldl (fun acc r => if r.success then 0 else acc + 1) 0

theorem trailFails_append_one (l : List DispatchRec) (r : DispatchRec) :
    trailFails (l ++ [r]) = if r.success then 0 else trailFails l + 1 := by
  simp [trailFails, List.foldl_append]

/-! ## Per-call stepping lemmas for `AgentLoop.procCall` -/

theorem procCall_fresh_succ (cfg : AgentConfig) (c : ScriptCall)
    (s : LoopState) (hne : s.lastToolCall ≠ some c.sig)
    (hs : c.succeeds = true) :
    AgentLoop.procCall cfg c s = .cont
      { lastToolCall := some c.sig, repeatedCount := 1,
        consecutiveErrors := 0,
        toolCallsLog := s.toolCallsLog ++ [c.record],
        dispatched := s.dispatched ++ [c.drec],
        finalResponse := s.finalResponse } := by
  have hne' : ¬ s.lastToolCall = some (c.name, canonArgs c.args) := by
    simpa [ScriptCall.sig] using hne
  simp [AgentLoop.procCall, AgentLoop.checkRepeatedCall, ScriptCall.sig,
    ScriptCall.record, ScriptCall.drec, hne', hs]

theorem procCall_fresh_fail_cont (cfg : AgentConfig) (c : ScriptCall)
    (s : LoopState) (hne : s.lastToolCall ≠ some c.sig)
    (hf : c.succeeds = false)
    (hlt : s.consecutiveErrors + 1 < cfg.maxConsecutiveErrors) :
    AgentLoop.procCall cfg c s = .cont
      { lastToolCall := some c.sig, repeatedCount := 1,
        consecutiveErrors := s.consecutiveErrors + 1,
        toolCallsLog := s.toolCallsLog ++ [c.record],
        dispatched := s.dispatched ++ [c.drec],
        finalResponse := s.finalResponse } := by
  have hnotle : ¬ cfg.maxConsecutiveErrors ≤ s.consecutiveErrors + 1 := by
    omega
  have hne' : ¬ s.lastToolCall = some (c.name, canonArgs c.args) := by
    simpa [ScriptCall.sig] using hne
  simp [AgentLoop.procCall, AgentLoop.checkRepeatedCall, ScriptCall.sig,
    ScriptCall.record, ScriptCall.drec, hne', hf, hnotle]

theorem procCall_fresh_fail_stop (cfg : AgentConfig) (c : ScriptCall)
    (s : LoopState) (hne : s.lastToolCall ≠ some c.sig)
    (hf : c.succeeds = false)
    (hge : cfg.maxConsecutiveErrors ≤ s.consecutiveErrors + 1) :
    AgentLoop.procCall cfg c s = .stopErrors
      { lastToolCall := some c.sig, repeatedCount := 1,
        consecutiveErrors := s.consecutiveErrors + 1,
        toolCallsLog := s.toolCallsLog ++ [c.record],
        dispatched := s.dispatched ++ [c.drec],
        finalResponse := s.finalResponse } := by
  have hne' : ¬ s.lastToolCall = some (c.name, canonArgs c.args) := by
    simpa [ScriptCall.sig] using hne
  simp [AgentLoop.procCall, AgentLoop.checkRepeatedCall, ScriptCall.sig,
    ScriptCall.record, ScriptCall.drec, hne', hf, hge]

theorem procCall_repeat_stop (cfg : AgentConfig) (c : ScriptCall)
    (s : LoopState) (heq : s.lastToolCall = some c.sig)
    (hge : cfg.maxRepeatedCalls ≤ s.repeatedCount + 1) :
    AgentLoop.procCall cfg c s = .stopRepeated
      { s with repeatedCount := s.repeatedCount + 1,
               toolCallsLog := s.toolCallsLog ++ [c.record] } := by
  simp [AgentLoop.procCall, AgentLoop.checkRepeatedCall, ScriptCall.sig,
    ScriptCall.record, show s.lastToolCall = some (c.name, canonArgs c.args) from heq, hge]

theorem procCall_repeat_succ (cfg : AgentConfig) (c : ScriptCall)
    (s : LoopState) (heq : s.lastToolCall = some c.sig)
    (hlt : s.repeatedCount + 1 < cfg.maxRepeatedCalls)
    (hs : c.succeeds = true) :
    AgentLoop.procCall cfg c s = .cont
      { s with repeatedCount := s.repeatedCount + 1,
               consecutiveErrors := 0,
               toolCallsLog := s.toolCallsLog ++ [c.record],
               dispatched := s.dispatched ++ [c.drec] } := by
  have hnotle : ¬ cfg.maxRepeatedCalls ≤ s.repeatedCount + 1 := by omega
  simp [AgentLoop.procCall, AgentLoop.checkRepeatedCall, ScriptCall.sig,
    ScriptCall.record, ScriptCall.drec,
    show s.lastToolCall = some (c.name, canonArgs c.args) from heq, hnotle, hs]

theorem procCall_repeat_fail_cont (cfg : AgentConfig) (c : ScriptCall)
    (s : LoopState) (heq : s.lastToolCall = some c.sig)
    (hlt : s.repeatedCount + 1 < cfg.maxRepeatedCalls)
    (hf : c.succeeds = false)
    (herr : s.consecutiveErrors + 1 < cfg.maxConsecutiveErrors) :
    AgentLoop.procCall cfg c s = .cont
      { s with repeatedCount := s.repeatedCount + 1,
               consecutiveErrors := s.consecutiveErrors + 1,
               toolCallsLog := s.toolCallsLog ++ [c.record],
               dispatched := s.dispatched ++ [c.drec] } := by
  have h1 : ¬ cfg.maxRepeatedCalls ≤ s.repeatedCount + 1 := by omega
  have h2 : ¬ cfg.maxConsecutiveErrors ≤ s.consecutiveErrors + 1 := by omega
  simp [AgentLoop.procCall, AgentLoop.checkRepeatedCall,
    ScriptCall.record, ScriptCall.drec,
    show s.lastToolCall = some (c.name, canonArgs c.args) from heq, h1, h2, hf]

theorem procCall_repeat_fail_stop (cfg : AgentConfig) (c : ScriptCall)
    (s : LoopState) (heq : s.lastToolCall = some c.sig)
    (hlt : s.repeatedCount + 1 < cfg.maxRepeatedCalls)
    (hf : c.succeeds = false)
    (herr : cfg.maxConsecutiveErrors ≤ s.consecutiveErrors + 1) :
    AgentLoop.procCall cfg c s = .stopErrors
      { s with repeatedCount := s.repeatedCount + 1,
               consecutiveErrors := s.consecutiveErrors + 1,
               toolCallsLog := s.toolCallsLog ++ [c.record],
               dispatched := s.dispatched ++ [c.drec] } := by
  have h1 : ¬ cfg.maxRepeatedCalls ≤ s.repeatedCount + 1 := by omega
  simp [AgentLoop.procCall, AgentLoop.checkRepeatedCall,
    ScriptCall.record, ScriptCall.drec,
    show s.lastToolCall = some (c.name, canonArgs c.args) from heq, h1, herr, hf]

/-- State carried by a step outcome. -/
def StepOut.state : StepOut → LoopState
  | .cont s => s
  | .stopRepeated s => s
  | .stopErrors s => s

/-! ## Batch lemmas for `AgentLoop.processCalls` -/

theorem processCalls_append (cfg : AgentConfig) (l1 l2 : List ScriptCall)
    (s : LoopState) :
    AgentLoop.processCalls cfg (l1 ++ l2) s =
      match AgentLoop.processCalls cfg l1 s with
      | .cont s' => AgentLoop.processCalls cfg l2 s'
      | .stopRepeated s' => .stopRepeated s'
      | .stopErrors s' => .stopErrors s' := by
  induction l1 generalizing s with
  | nil => simp [AgentLoop.processCalls]
  | cons c rest ih =>
      simp only [List.cons_append, AgentLoop.processCalls]
      cases AgentLoop.procCall cfg c s with
      | cont s' => exact ih s'
      | stopRepeated s' => rfl
      | stopErrors s' => rfl

theorem freshChain_append (prev : Option Sig) (l1 l2 : List ScriptCall) :
    freshChain prev (l1 ++ l2)
      = (freshChain prev l1 && freshChain (lastSigOpt prev l1) l2) := by
  induction l1 generalizing prev with
  | nil => simp [freshChain, lastSigOpt]
  | cons c rest ih =>
      simp [freshChain, lastSigOpt, ih, Bool.and_assoc]

theorem processCalls_fresh_succ (cfg : AgentConfig) (cs : List ScriptCall) :
    ∀ (s : LoopState), freshChain s.lastToolCall cs = true →
    allSucc cs = true →
    AgentLoop.processCalls cfg cs s = .cont
      { lastToolCall := lastSigOpt s.lastToolCall cs,
        repeatedCount := if cs.isEmpty then s.repeatedCount else 1,
        consecutiveErrors := if cs.isEmpty then s.consecutiveErrors else 0,
        toolCallsLog := s.toolCallsLog ++ cs.map ScriptCall.record,
        dispatched := s.dispatched ++ cs.map ScriptCall.drec,
        finalResponse := s.finalResponse } := by
  induction cs with
  | nil => intro s _ _; simp [AgentLoop.processCalls, lastSigOpt]
  | cons c rest ih =>
      intro s h1 h2
      simp only [freshChain, Bool.and_eq_true, decide_eq_true_eq] at h1
      obtain ⟨hne, hch⟩ := h1
      simp only [allSucc, List.all_cons, Bool.and_eq_true] at h2
      obtain ⟨hs, hrest⟩ := h2
      have hrest' : allSucc rest = true := hrest
      simp only [AgentLoop.processCalls,
        procCall_fresh_succ cfg c s hne hs]
      rw [ih _ (by simpa [lastSigOpt] using hch) hrest']
      simp [lastSigOpt]

theorem processCalls_fresh_fail (cfg : AgentConfig) (cs : List ScriptCall) :
    ∀ (s : LoopState), freshChain s.lastToolCall cs = true →
    allFail cs = true →
    s.consecutiveErrors + cs.length < cfg.maxConsecutiveErrors →
    AgentLoop.processCalls cfg cs s = .cont
      { lastToolCall := lastSigOpt s.lastToolCall cs,
        repeatedCount := if cs.isEmpty then s.repeatedCount else 1,
        consecutiveErrors := s.consecutiveErrors + cs.length,
        toolCallsLog := s.toolCallsLog ++ cs.map ScriptCall.record,
        dispatched := s.dispatched ++ cs.map ScriptCall.drec,
        finalResponse := s.finalResponse } := by
  induction cs with
  | nil => intro s _ _ _; simp [AgentLoop.processCalls, lastSigOpt]
  | cons c rest ih =>
      intro s h1 h2 h3
      simp only [freshChain, Bool.and_eq_true, decide_eq_true_eq] at h1
      obtain ⟨hne, hch⟩ := h1
      simp only [allFail, List.all_cons, Bool.and_eq_true,
        Bool.not_eq_eq_eq_not, Bool.not_true] at h2
      obtain ⟨hf, hrest⟩ := h2
      have hrest' : allFail rest = true := by
        simpa [allFail, Bool.not_eq_eq_eq_not] using hrest
      have hlen : s.consecutiveErrors + 1 < cfg.maxConsecutiveErrors := by
        simp only [List.length_cons] at h3; omega
      simp only [AgentLoop.processCalls,
        procCall_fresh_fail_cont cfg c s hne hf hlen]
      rw [ih _ (by simpa [lastSigOpt] using hch) hrest'
        (by simp only [List.length_cons] at h3 ⊢; omega)]
      simp only [List.length_cons] at h3 ⊢
      simp [lastSigOpt]
      omega

theorem processCalls_fresh_fail_stop (cfg : AgentConfig)
    (cs : List ScriptCall) : ∀ (s : LoopState),
    freshChain s.lastToolCall cs = true → allFail cs = true →
    s.consecutiveErrors < cfg.maxConsecutiveErrors →
    cfg.maxConsecutiveErrors ≤ s.consecutiveErrors + cs.length →
    ∃ s', AgentLoop.processCalls cfg cs s = .stopErrors s'
      ∧ s'.toolCallsLog = s.toolCallsLog ++
          ((cs.take (cfg.maxConsecutiveErrors - s.consecutiveErrors)).map
            ScriptCall.record)
      ∧ s'.dispatched = s.dispatched ++
          ((cs.take (cfg.maxConsecutiveErrors - s.consecutiveErrors)).map
            ScriptCall.drec)
      ∧ s'.consecutiveErrors = cfg.maxConsecutiveErrors
      ∧ s'.finalResponse = s.finalResponse := by
  induction cs with
  | nil =>
      intro s _ _ hlt hge
      simp only [List.length_nil, Nat.add_zero] at hge
      omega
  | cons c rest ih =>
      intro s h1 h2 hlt hge
      simp only [freshChain, Bool.and_eq_true, decide_eq_true_eq] at h1
      obtain ⟨hne, hch⟩ := h1
      simp only [allFail, List.all_cons, Bool.and_eq_true,
        Bool.not_eq_eq_eq_not, Bool.not_true] at h2
      obtain ⟨hf, hrest⟩ := h2
      have hrest' : allFail rest = true := by
        simpa [allFail, Bool.not_eq_eq_eq_not] using hrest
      by_cases hstop : cfg.maxConsecutiveErrors ≤ s.consecutiveErrors + 1
      · have ht : cfg.maxConsecutiveErrors - s.consecutiveErrors = 1 := by
          omega
        refine ⟨{ lastToolCall := some c.sig, repeatedCount := 1,
                  consecutiveErrors := s.consecutiveErrors + 1,
                  toolCallsLog := s.toolCallsLog ++ [c.record],
                  dispatched := s.dispatched ++ [c.drec],
                  finalResponse := s.finalResponse }, ?_, ?_, ?_, ?_, ?_⟩
        · simp only [AgentLoop.processCalls,
            procCall_fresh_fail_stop cfg c s hne hf hstop]
        · simp [ht]
        · simp [ht]
        · simp; omega
        · simp
      · have hlt1 : s.consecutiveErrors + 1 < cfg.maxConsecutiveErrors := by
          omega
        have hge1 : cfg.maxConsecutiveErrors ≤
            (s.consecutiveErrors + 1) + rest.length := by
          simp only [List.length_cons] at hge; omega
        obtain ⟨s', heq, hlog, hdisp, hce, hfr⟩ :=
          ih { lastToolCall := some c.sig, repeatedCount := 1,
               consecutiveErrors := s.consecutiveErrors + 1,
               toolCallsLog := s.toolCallsLog ++ [c.record],
               dispatched := s.dispatched ++ [c.drec],
               finalResponse := s.finalResponse }
            (by simpa [lastSigOpt] using hch) hrest' hlt1 hge1
        have ht : cfg.maxConsecutiveErrors - s.consecutiveErrors
            = (cfg.maxConsecutiveErrors - (s.consecutiveErrors + 1)) + 1 := by
          omega
        refine ⟨s', ?_, ?_, ?_, hce, hfr⟩
        · simp only [AgentLoop.processCalls,
            procCall_fresh_fail_cont cfg c s hne hf hlt1]
          exact heq
        · rw [hlog, ht, List.take_succ_cons]
          simp
        · rw [hdisp, ht, List.take_succ_cons]
          simp

theorem processCalls_repeat_stop (cfg : AgentConfig) (σ : Sig)
    (cs : List ScriptCall) : ∀ (s : LoopState),
    allSig σ cs = true → allSucc cs = true →
    s.lastToolCall = some σ →
    s.repeatedCount < cfg.maxRepeatedCalls →
    cfg.maxRepeatedCalls ≤ s.repeatedCount + cs.length →
    ∃ s', AgentLoop.processCalls cfg cs s = .stopRepeated s'
      ∧ s'.toolCallsLog = s.toolCallsLog ++
          ((cs.take (cfg.maxRepeatedCalls - s.repeatedCount)).map
            ScriptCall.record)
      ∧ s'.dispatched = s.dispatched ++
          ((cs.take (cfg.maxRepeatedCalls - s.repeatedCount - 1)).map
            ScriptCall.drec)
      ∧ s'.finalResponse = s.finalResponse := by
  induction cs with
  | nil =>
      intro s _ _ _ hlt hge
      simp only [List.length_nil, Nat.add_zero] at hge
      omega
  | cons c rest ih =>
      intro s h1 h2 hlast hlt hge
      simp only [allSig, List.all_cons, Bool.and_eq_true,
        decide_eq_true_eq] at h1
      obtain ⟨hcσ, hrestσ⟩ := h1
      have hrestσ' : allSig σ rest = true := by
        simpa [allSig] using hrestσ
      simp only [allSucc, List.all_cons, Bool.and_eq_true] at h2
      obtain ⟨hs, hrest⟩ := h2
      have hrest' : allSucc rest = true := hrest
      have hlast' : s.lastToolCall = some c.sig := by rw [hlast, hcσ]
      by_cases hstop : cfg.maxRepeatedCalls ≤ s.repeatedCount + 1
      · have ht : cfg.maxRepeatedCalls - s.repeatedCount = 1 := by omega
        refine ⟨LoopState.mk s.lastToolCall (s.repeatedCount + 1)
          s.consecutiveErrors (s.toolCallsLog ++ [c.record]) s.dispatched
          s.finalResponse, ?_, ?_, ?_, ?_⟩
        · simp only [AgentLoop.processCalls,
            procCall_repeat_stop cfg c s hlast' hstop]
        · simp [ht]
        · simp [ht]
        · simp
      · have hlt1 : s.repeatedCount + 1 < cfg.maxRepeatedCalls := by omega
        have hge1 : cfg.maxRepeatedCalls ≤
            (s.repeatedCount + 1) + rest.length := by
          simp only [List.length_cons] at hge; omega
        obtain ⟨s', heq, hlog, hdisp, hfr⟩ :=
          ih (LoopState.mk s.lastToolCall (s.repeatedCount + 1) 0
              (s.toolCallsLog ++ [c.record]) (s.dispatched ++ [c.drec])
              s.finalResponse)
            hrestσ' hrest' hlast hlt1 hge1
        have ht : cfg.maxRepeatedCalls - s.repeatedCount
            = (cfg.maxRepeatedCalls - (s.repeatedCount + 1)) + 1 := by
          omega
        have ht2 : cfg.maxRepeatedCalls - s.repeatedCount - 1
            = (cfg.maxRepeatedCalls - (s.repeatedCount + 1) - 1) + 1 := by
          omega
        refine ⟨s', ?_, ?_, ?_, hfr⟩
        · simp only [AgentLoop.processCalls,
            procCall_repeat_succ cfg c s hlast' hlt1 hs]
          exact heq
        · rw [hlog, ht, List.take_succ_cons]
          simp
        · rw [hdisp, ht2, List.take_succ_cons]
          simp

/-! ## The consecutive-error counter tracks trailing dispatch failures -/

/-- Invariant of a live loop state: the `_consecutive_errors` counter equals
the number of trailing failures of the dispatch trace and is below the
breaker threshold. -/
def ErrInvS (cfg : AgentConfig) (s : LoopState) : Prop :=
  s.consecutiveErrors = trailFails s.dispatched ∧
  s.consecutiveErrors < cfg.maxConsecutiveErrors

/-- The invariant carried through a step outcome: live states stay live, a
`stopErrors` state sits exactly at the threshold. -/
def ErrInvOut (cfg : AgentConfig) : StepOut → Prop
  | .cont s => ErrInvS cfg s
  | .stopRepeated s => ErrInvS cfg s
  | .stopErrors s => s.consecutiveErrors = trailFails s.dispatched ∧
      s.consecutiveErrors = cfg.maxConsecutiveErrors

theorem procCall_errInv (cfg : AgentConfig) (c : ScriptCall) (s : LoopState)
    (h : ErrInvS cfg s) : ErrInvOut cfg (AgentLoop.procCall cfg c s) := by
  obtain ⟨h1, h2⟩ := h
  by_cases hlast : s.lastToolCall = some c.sig
  · by_cases hrep : cfg.maxRepeatedCalls ≤ s.repeatedCount + 1
    · rw [procCall_repeat_stop cfg c s hlast hrep]
      exact ⟨h1, h2⟩
    · have hrep' : s.repeatedCount + 1 < cfg.maxRepeatedCalls := by omega
      by_cases hsucc : c.succeeds = true
      · rw [procCall_repeat_succ cfg c s hlast hrep' hsucc]
        refine ⟨?_, by simp only [LoopState.consecutiveErrors]; omega⟩
        simp [trailFails_append_one, ScriptCall.drec, hsucc]
      · have hf : c.succeeds = false := by
          revert hsucc; cases c.succeeds <;> simp
        by_cases herr : cfg.maxConsecutiveErrors ≤ s.consecutiveErrors + 1
        · rw [procCall_repeat_fail_stop cfg c s hlast hrep' hf herr]
          refine ⟨?_, by simp only [LoopState.consecutiveErrors]; omega⟩
          simp [trailFails_append_one, ScriptCall.drec, hf, h1]
        · rw [procCall_repeat_fail_cont cfg c s hlast hrep' hf (by omega)]
          refine ⟨?_, by simp only [LoopState.consecutiveErrors]; omega⟩
          simp [trailFails_append_one, ScriptCall.drec, hf, h1]
  · by_cases hsucc : c.succeeds = true
    · rw [procCall_fresh_succ cfg c s hlast hsucc]
      refine ⟨?_, by simp only [LoopState.consecutiveErrors]; omega⟩
      simp [trailFails_append_one, ScriptCall.drec, hsucc]
    · have hf : c.succeeds = false := by
        revert hsucc; cases c.succeeds <;> simp
      by_cases herr : cfg.maxConsecutiveErrors ≤ s.consecutiveErrors + 1
      · rw [procCall_fresh_fail_stop cfg c s hlast hf herr]
        refine ⟨?_, by simp only [LoopState.consecutiveErrors]; omega⟩
        simp [trailFails_append_one, ScriptCall.drec, hf, h1]
      · rw [procCall_fresh_fail_cont cfg c s hlast hf (by omega)]
        refine ⟨?_, by simp only [LoopState.consecutiveErrors]; omega⟩
        simp [trailFails_append_one, ScriptCall.drec, hf, h1]

theorem processCalls_errInv (cfg : AgentConfig) (cs : List ScriptCall) :
    ∀ (s : LoopState), ErrInvS cfg s →
    ErrInvOut cfg (AgentLoop.processCalls cfg cs s) := by
  induction cs with
  | nil => intro s h; exact h
  | cons c rest ih =>
      intro s h
      have hstep := procCall_errInv cfg c s h
      simp only [AgentLoop.processCalls]
      cases hout : AgentLoop.procCall cfg c s with
      | cont s' =>
          rw [hout] at hstep
          exact ih s' hstep
      | stopRepeated s' =>
          rw [hout] at hstep
          exact hstep
      | stopErrors s' =>
          rw [hout] at hstep
          exact hstep

/-! ## `final_response` is never written on a tool-call path -/

theorem procCall_finalResponse (cfg : AgentConfig) (c : ScriptCall)
    (s : LoopState) :
    (AgentLoop.procCall cfg c s).state.finalResponse = s.finalResponse := by
  by_cases hlast : s.lastToolCall = some c.sig
  · by_cases hrep : cfg.maxRepeatedCalls ≤ s.repeatedCount + 1
    · rw [procCall_repeat_stop cfg c s hlast hrep]; rfl
    · have hrep' : s.repeatedCount + 1 < cfg.maxRepeatedCalls := by omega
      by_cases hsucc : c.succeeds = true
      · rw [procCall_repeat_succ cfg c s hlast hrep' hsucc]; rfl
      · have hf : c.succeeds = false := by
          revert hsucc; cases c.succeeds <;> simp
        by_cases herr : cfg.maxConsecutiveErrors ≤ s.consecutiveErrors + 1
        · rw [procCall_repeat_fail_stop cfg c s hlast hrep' hf herr]; rfl
        · rw [procCall_repeat_fail_cont cfg c s hlast hrep' hf (by omega)]
          rfl
  · by_cases hsucc : c.succeeds = true
    · rw [procCall_fresh_succ cfg c s hlast hsucc]; rfl
    · have hf : c.succeeds = false := by
        revert hsucc; cases c.succeeds <;> simp
      by_cases herr : cfg.maxConsecutiveErrors ≤ s.consecutiveErrors + 1
      · rw [procCall_fresh_fail_stop cfg c s hlast hf herr]; rfl
      · rw [procCall_fresh_fail_cont cfg c s hlast hf (by omega)]; rfl

theorem processCalls_finalResponse (cfg : AgentConfig)
    (cs : List ScriptCall) : ∀ (s : LoopState),
    (AgentLoop.processCalls cfg cs s).state.finalResponse
      = s.finalResponse := by
  induction cs with
  | nil => intro s; rfl
  | cons c rest ih =>
      intro s
      have hstep := procCall_finalResponse cfg c s
      simp only [AgentLoop.processCalls]
      cases hout : AgentLoop.procCall cfg c s with
      | cont s' =>
          rw [hout] at hstep
          rw [ih s']
          exact hstep
      | stopRepeated s' =>
          rw [hout] at hstep
          exact hstep
      | stopErrors s' =>
          rw [hout] at hstep
          exact hstep

/-! ## Turn-level lemmas for `AgentLoop.runAux` -/

theorem runAux_turns_le (cfg : AgentConfig) (model : Nat → ModelTurn) :
    ∀ (fuel tdone : Nat) (s : LoopState),
    tdone + fuel = cfg.maxTurns →
    (AgentLoop.runAux cfg model fuel tdone s).turns ≤ cfg.maxTurns := by
  intro fuel
  induction fuel with
  | zero => intro tdone s _; simp [AgentLoop.runAux]
  | succ n ih =>
      intro tdone s hsum
      simp only [AgentLoop.runAux]
      by_cases hmt : (model tdone).toolCalls = []
      · simp only [hmt, if_true]
        show tdone + 1 ≤ cfg.maxTurns
        omega
      · simp only [hmt, if_false]
        cases AgentLoop.processCalls cfg (model tdone).toolCalls s with
        | cont s' => exact ih (tdone + 1) s' (by omega)
        | stopRepeated s' =>
            show tdone + 1 ≤ cfg.maxTurns
            omega
        | stopErrors s' =>
            show tdone + 1 ≤ cfg.maxTurns
            omega

theorem runAux_maxTurns (cfg : AgentConfig) (model : Nat → ModelTurn) :
    ∀ (fuel tdone : Nat) (s : LoopState),
    (∀ t, tdone ≤ t → t < tdone + fuel → (model t).toolCalls ≠ []) →
    s.finalResponse = "" →
    (AgentLoop.runAux cfg model fuel tdone s).stopReason ≠ .repeatedCall →
    (AgentLoop.runAux cfg model fuel tdone s).stopReason
      ≠ .consecutiveErrors →
    (AgentLoop.runAux cfg model fuel tdone s).stopReason = .maxTurns
    ∧ (AgentLoop.runAux cfg model fuel tdone s).turns = cfg.maxTurns
    ∧ (AgentLoop.runAux cfg model fuel tdone s).response
        = "Max turns reached" := by
  intro fuel
  induction fuel with
  | zero =>
      intro tdone s _ hfr _ _
      simp [AgentLoop.runAux, hfr]
  | succ n ih =>
      intro tdone s hcalls hfr hnr hne
      have hmt : (model tdone).toolCalls ≠ [] :=
        hcalls tdone (le_refl tdone) (by omega)
      simp only [AgentLoop.runAux, hmt, if_false] at hnr hne ⊢
      have hpres := processCalls_finalResponse cfg (model tdone).toolCalls s
      cases hout : AgentLoop.processCalls cfg (model tdone).toolCalls s with
      | cont s' =>
          rw [hout] at hnr hne hpres
          refine ih (tdone + 1) s' ?_ ?_ hnr hne
          · intro t ht1 ht2
            exact hcalls t (by omega) (by omega)
          · rw [← hfr]
            exact hpres
      | stopRepeated s' =>
          rw [hout] at hnr
          simp at hnr
      | stopErrors s' =>
          rw [hout] at hne
          simp at hne

theorem runAux_errExact (cfg : AgentConfig) (model : Nat → ModelTurn) :
    ∀ (fuel tdone : Nat) (s : LoopState), ErrInvS cfg s →
    ((AgentLoop.runAux cfg model fuel tdone s).stopReason
        = .consecutiveErrors →
      trailFails (AgentLoop.runAux cfg model fuel tdone s).dispatched
        = cfg.maxConsecutiveErrors)
    ∧ ((AgentLoop.runAux cfg model fuel tdone s).stopReason
        ≠ .consecutiveErrors →
      trailFails (AgentLoop.runAux cfg model fuel tdone s).dispatched
        < cfg.maxConsecutiveErrors) := by
  intro fuel
  induction fuel with
  | zero =>
      intro tdone s hinv
      obtain ⟨h1, h2⟩ := hinv
      constructor
      · intro habs
        simp [AgentLoop.runAux] at habs
      · intro _
        show trailFails s.dispatched < cfg.maxConsecutiveErrors
        exact h1 ▸ h2
  | succ n ih =>
      intro tdone s hinv
      by_cases hmt : (model tdone).toolCalls = []
      · constructor
        · intro habs
          simp [AgentLoop.runAux, hmt] at habs
        · intro _
          obtain ⟨h1, h2⟩ := hinv
          simp only [AgentLoop.runAux, hmt, if_true]
          show trailFails s.dispatched < cfg.maxConsecutiveErrors
          exact h1 ▸ h2
      · have hstep := processCalls_errInv cfg (model tdone).toolCalls s hinv
        simp only [AgentLoop.runAux, hmt, if_false]
        cases hout : AgentLoop.processCalls cfg (model tdone).toolCalls s with
        | cont s' =>
            rw [hout] at hstep
            exact ih (tdone + 1) s' hstep
        | stopRepeated s' =>
            rw [hout] at hstep
            obtain ⟨h1, h2⟩ := hstep
            constructor
            · intro habs
              simp at habs
            · intro _
              show trailFails s'.dispatched < cfg.maxConsecutiveErrors
              exact h1 ▸ h2
        | stopErrors s' =>
            rw [hout] at hstep
            obtain ⟨h1, h2⟩ := hstep
            constructor
            · intro _
              show trailFails s'.dispatched = cfg.maxConsecutiveErrors
              rw [← h1]
              exact h2
            · intro habs
              exact absurd rfl habs

theorem runAux_repeat_single (cfg : AgentConfig) (model : Nat → ModelTurn)
    (c : ScriptCall) (hc : c.succeeds = true)
    (hmt : ∀ t, (model t).toolCalls = [c]) :
    ∀ (fuel tdone : Nat) (s : LoopState),
    s.lastToolCall = some c.sig →
    s.repeatedCount < cfg.maxRepeatedCalls →
    cfg.maxRepeatedCalls ≤ s.repeatedCount + fuel →
    AgentLoop.runAux cfg model fuel tdone s =
      { response := "Stopped: repeated tool call detected",
        stopReason := .repeatedCall,
        turns := tdone + (cfg.maxRepeatedCalls - s.repeatedCount),
        toolCalls := s.toolCallsLog ++
          List.replicate (cfg.maxRepeatedCalls - s.repeatedCount) c.record,
        dispatched := s.dispatched ++
          List.replicate (cfg.maxRepeatedCalls - s.repeatedCount - 1)
            c.drec } := by
  intro fuel
  induction fuel with
  | zero =>
      intro tdone s _ h3 h4
      exact absurd h4 (by omega)
  | succ n ih =>
      intro tdone s h1 h3 h4
      simp only [AgentLoop.runAux, hmt tdone]
      rw [if_neg (by simp)]
      by_cases hstop : cfg.maxRepeatedCalls ≤ s.repeatedCount + 1
      · have ht : cfg.maxRepeatedCalls - s.repeatedCount = 1 := by omega
        simp only [AgentLoop.processCalls,
          procCall_repeat_stop cfg c s h1 hstop]
        simp [ht]
      · have hlt1 : s.repeatedCount + 1 < cfg.maxRepeatedCalls := by omega
        simp only [AgentLoop.processCalls,
          procCall_repeat_succ cfg c s h1 hlt1 hc]
        rw [ih (tdone + 1)
          (LoopState.mk s.lastToolCall (s.repeatedCount + 1) 0
            (s.toolCallsLog ++ [c.record]) (s.dispatched ++ [c.drec])
            s.finalResponse) h1 hlt1
          (by show cfg.maxRepeatedCalls ≤ s.repeatedCount + 1 + n; omega)]
        have e2 : cfg.maxRepeatedCalls - s.repeatedCount - 1
            = (cfg.maxRepeatedCalls - (s.repeatedCount + 1) - 1) + 1 := by
          omega
        have e1 : cfg.maxRepeatedCalls - s.repeatedCount
            = (cfg.maxRepeatedCalls - (s.repeatedCount + 1)) + 1 := by omega
        rw [e2, e1, List.replicate_succ, List.replicate_succ]
        simp only [AgentResult.mk.injEq, List.append_assoc,
          List.singleton_append, and_true, true_and]
        omega

theorem runAux_alternate (cfg : AgentConfig) (model : Nat → ModelTurn)
    (a b : ScriptCall) (hab : a.sig ≠ b.sig)
    (ha : a.succeeds = true) (hb : b.succeeds = true)
    (hmt : ∀ t, (model t).toolCalls = [a, b]) :
    ∀ (fuel tdone : Nat) (s : LoopState),
    s.lastToolCall ≠ some a.sig →
    (AgentLoop.runAux cfg model fuel tdone s).stopReason = .maxTurns := by
  intro fuel
  induction fuel with
  | zero => intro tdone s _; rfl
  | succ n ih =>
      intro tdone s hne
      simp only [AgentLoop.runAux, hmt tdone]
      rw [if_neg (by simp)]
      rw [show AgentLoop.processCalls cfg [a, b] s
          = AgentLoop.processCalls cfg [b]
            (LoopState.mk (some a.sig) 1 0
              (s.toolCallsLog ++ [a.record]) (s.dispatched ++ [a.drec])
              s.finalResponse) by
        simp only [AgentLoop.processCalls, procCall_fresh_succ cfg a s hne ha]]
      rw [show AgentLoop.processCalls cfg [b]
            (LoopState.mk (some a.sig) 1 0
              (s.toolCallsLog ++ [a.record]) (s.dispatched ++ [a.drec])
              s.finalResponse)
          = .cont (LoopState.mk (some b.sig) 1 0
              ((s.toolCallsLog ++ [a.record]) ++ [b.record])
              ((s.dispatched ++ [a.drec]) ++ [b.drec])
              s.finalResponse) by
        simp only [AgentLoop.processCalls,
          procCall_fresh_succ cfg b
            (LoopState.mk (some a.sig) 1 0
              (s.toolCallsLog ++ [a.record]) (s.dispatched ++ [a.drec])
              s.finalResponse)
            (by show some a.sig ≠ some b.sig; simpa using hab) hb]]
      refine ih (tdone + 1) _ ?_
      show some b.sig ≠ some a.sig
      simpa using Ne.symm hab


/-- When the first batch of calls continues, processing an appended batch
continues from its end state. -/
theorem processCalls_append_cont (cfg : AgentConfig)
    (l1 l2 : List ScriptCall) (s s1 : LoopState)
    (h : AgentLoop.processCalls cfg l1 s = .cont s1) :
    AgentLoop.processCalls cfg (l1 ++ l2) s
      = AgentLoop.processCalls cfg l2 s1 := by
  rw [processCalls_append, h]

/-- When the head call continues, the batch continues with the tail. -/
theorem processCalls_cons_cont (cfg : AgentConfig) (c : ScriptCall)
    (rest : List ScriptCall) (s s1 : LoopState)
    (h : AgentLoop.procCall cfg c s = .cont s1) :
    AgentLoop.processCalls cfg (c :: rest) s
      = AgentLoop.processCalls cfg rest s1 := by
  simp only [AgentLoop.processCalls, h]

/-! ## Claim C1: repeated-call circuit breaker -/

/-- Claim C1 (amended): with `max_repeated_calls = k ≥ 2`, if the model
issues the same tool call (same name and arguments, regardless of JSON key
order) `k` times consecutively with no different call in between, `run`
returns REPEATED_CALL at the turn where the `k`-th occurrence appears, and
that final call is never dispatched to the registry; only consecutive
identical calls count, so alternating two distinct calls never trips the
breaker.  (For `k = 1` the code behaves as if `k = 2`: the first occurrence
only initialises the counter, see the counterexample.)  Part 1: the `k`
identical calls arrive in one turn, possibly after a prefix of
pairwise-distinct successful calls, so the breaker trips in turn 1 with the
last call logged but not dispatched; part 2: one identical call per turn
trips at turn `k` with `k - 1` dispatches; part 3: strict alternation of
two distinct calls ends in MAX_TURNS, never REPEATED_CALL; part 4:
argument-key order does not change the canonical signature. -/
theorem C1_repeated_call_breaker :
    (∀ (cfg : AgentConfig) (model : Nat → ModelTurn)
       (pre cs : List ScriptCall) (σ : Sig),
       2 ≤ cfg.maxRepeatedCalls → 1 ≤ cfg.maxTurns →
       (model 0).toolCalls = pre ++ cs →
       freshChain none pre = true → allSucc pre = true →
       lastSigOpt none pre ≠ some σ →
       allSig σ cs = true → allSucc cs = true →
       cs.length = cfg.maxRepeatedCalls →
       AgentLoop.run cfg model =
         { response := "Stopped: repeated tool call detected",
           stopReason := .repeatedCall, turns := 1,
           toolCalls := (pre ++ cs).map ScriptCall.record,
           dispatched := (pre ++ cs.take (cfg.maxRepeatedCalls - 1)).map
             ScriptCall.drec })
    ∧ (∀ (cfg : AgentConfig) (model : Nat → ModelTurn) (c : ScriptCall),
       2 ≤ cfg.maxRepeatedCalls → cfg.maxRepeatedCalls ≤ cfg.maxTurns →
       (∀ t, (model t).toolCalls = [c]) → c.succeeds = true →
       AgentLoop.run cfg model =
         { response := "Stopped: repeated tool call detected",
           stopReason := .repeatedCall, turns := cfg.maxRepeatedCalls,
           toolCalls := List.replicate cfg.maxRepeatedCalls c.record,
           dispatched := List.replicate (cfg.maxRepeatedCalls - 1) c.drec })
    ∧ (∀ (cfg : AgentConfig) (model : Nat → ModelTurn) (a b : ScriptCall),
       a.sig ≠ b.sig → a.succeeds = true → b.succeeds = true →
       (∀ t, (model t).toolCalls = [a, b]) →
       (AgentLoop.run cfg model).stopReason = .maxTurns)
    ∧ ScriptCall.sig ⟨"t", [("a", "1"), ("b", "2")], true⟩
        = ScriptCall.sig ⟨"t", [("b", "2"), ("a", "1")], true⟩ := by
  refine ⟨?_, ?_, ?_, by decide⟩
  · intro cfg model pre cs σ hk hT hmodel hfresh hsuccp hlast hsig hsuccs hlen
    obtain ⟨T, hT'⟩ : ∃ T, cfg.maxTurns = T + 1 :=
      ⟨cfg.maxTurns - 1, by omega⟩
    cases cs with
    | nil =>
        simp only [List.length_nil] at hlen
        omega
    | cons c cs' =>
        simp only [allSig, List.all_cons, Bool.and_eq_true,
          decide_eq_true_eq] at hsig
        obtain ⟨hcσ, hsig'⟩ := hsig
        have hsig'' : allSig σ cs' = true := by simpa [allSig] using hsig'
        simp only [allSucc, List.all_cons, Bool.and_eq_true] at hsuccs
        obtain ⟨hcs, hsuccs'⟩ := hsuccs
        have hsuccs'' : allSucc cs' = true := hsuccs'
        have hlen' : cs'.length = cfg.maxRepeatedCalls - 1 := by
          simp only [List.length_cons] at hlen; omega
        unfold AgentLoop.run
        rw [hT']
        simp only [AgentLoop.runAux, hmodel]
        rw [if_neg (by simp)]
        rw [processCalls_append_cont cfg pre (c :: cs') LoopState.init _
          (processCalls_fresh_succ cfg pre LoopState.init hfresh hsuccp)]
        set SP : LoopState :=
          { lastToolCall := lastSigOpt LoopState.init.lastToolCall pre,
            repeatedCount := if pre.isEmpty then LoopState.init.repeatedCount
                             else 1,
            consecutiveErrors := if pre.isEmpty
                                 then LoopState.init.consecutiveErrors else 0,
            toolCallsLog := LoopState.init.toolCallsLog
              ++ pre.map ScriptCall.record,
            dispatched := LoopState.init.dispatched
              ++ pre.map ScriptCall.drec,
            finalResponse := LoopState.init.finalResponse } with hSP
        have hne2 : SP.lastToolCall ≠ some c.sig := by
          rw [hSP, hcσ]
          exact hlast
        rw [processCalls_cons_cont cfg c cs' SP _
          (procCall_fresh_succ cfg c SP hne2 hcs)]
        obtain ⟨s', heq, hlog, hdisp, hfr⟩ :=
          processCalls_repeat_stop cfg σ cs'
            { lastToolCall := some c.sig, repeatedCount := 1,
              consecutiveErrors := 0,
              toolCallsLog := SP.toolCallsLog ++ [c.record],
              dispatched := SP.dispatched ++ [c.drec],
              finalResponse := SP.finalResponse }
            hsig'' hsuccs''
            (by show some c.sig = some σ; rw [hcσ])
            (by show 1 < cfg.maxRepeatedCalls; omega)
            (by show cfg.maxRepeatedCalls ≤ 1 + cs'.length; omega)
        rw [heq]
        show ({ response := "Stopped: repeated tool call detected",
                stopReason := .repeatedCall, turns := 0 + 1,
                toolCalls := s'.toolCallsLog,
                dispatched := s'.dispatched } : AgentResult) = _
        have htake : cs'.take (cfg.maxRepeatedCalls - 1) = cs' := by
          rw [← hlen']
          exact List.take_length cs'
        simp only [AgentResult.mk.injEq]
        refine ⟨trivial, trivial, trivial, ?_, ?_⟩
        · rw [hlog]
          show (SP.toolCallsLog ++ [c.record])
              ++ (cs'.take (cfg.maxRepeatedCalls - 1)).map ScriptCall.record
            = (pre ++ c :: cs').map ScriptCall.record
          rw [htake, hSP]
          simp [LoopState.init]
        · rw [hdisp]
          show (SP.dispatched ++ [c.drec])
              ++ (cs'.take (cfg.maxRepeatedCalls - 1 - 1)).map
                  ScriptCall.drec
            = (pre ++ (c :: cs').take (cfg.maxRepeatedCalls - 1)).map
                ScriptCall.drec
          have e1 : cfg.maxRepeatedCalls - 1
              = (cfg.maxRepeatedCalls - 2) + 1 := by omega
          have e2 : cfg.maxRepeatedCalls - 1 - 1
              = cfg.maxRepeatedCalls - 2 := by omega
          rw [e2, e1, List.take_succ_cons, hSP]
          simp [LoopState.init]
  · intro cfg model c hk hkT hmt hc
    obtain ⟨T, hT'⟩ : ∃ T, cfg.maxTurns = T + 1 :=
      ⟨cfg.maxTurns - 1, by omega⟩
    unfold AgentLoop.run
    rw [hT']
    simp only [AgentLoop.runAux, hmt 0]
    rw [if_neg (by simp)]
    rw [processCalls_cons_cont cfg c [] LoopState.init _
      (procCall_fresh_succ cfg c LoopState.init (by simp [LoopState.init])
        hc)]
    simp only [AgentLoop.processCalls]
    rw [runAux_repeat_single cfg model c hc hmt T (0 + 1)
      { lastToolCall := some c.sig, repeatedCount := 1,
        consecutiveErrors := 0,
        toolCallsLog := LoopState.init.toolCallsLog ++ [c.record],
        dispatched := LoopState.init.dispatched ++ [c.drec],
        finalResponse := LoopState.init.finalResponse }
      rfl (by show (1 : Nat) < cfg.maxRepeatedCalls; omega)
      (by show cfg.maxRepeatedCalls ≤ 1 + T; omega)]
    have e1 : cfg.maxRepeatedCalls = (cfg.maxRepeatedCalls - 1) + 1 := by
      omega
    have e2 : cfg.maxRepeatedCalls - 1
        = (cfg.maxRepeatedCalls - 1 - 1) + 1 := by omega
    simp only [AgentResult.mk.injEq]
    refine ⟨trivial, trivial, by omega, ?_, ?_⟩
    · show (LoopState.init.toolCallsLog ++ [c.record])
        ++ List.replicate (cfg.maxRepeatedCalls - 1) c.record
        = List.replicate cfg.maxRepeatedCalls c.record
      rw [e1, List.replicate_succ]
      simp [LoopState.init]
    · show (LoopState.init.dispatched ++ [c.drec])
        ++ List.replicate (cfg.maxRepeatedCalls - 1 - 1) c.drec
        = List.replicate (cfg.maxRepeatedCalls - 1) c.drec
      rw [e2, List.replicate_succ]
      simp [LoopState.init]
  · intro cfg model a b hab ha hb hmt
    exact runAux_alternate cfg model a b hab ha hb hmt cfg.maxTurns 0
      LoopState.init (by simp [LoopState.init])

/-- Claim C1, counterexample to the claim as stated: with
`max_repeated_calls = 1` (allowed by the spec: int ≥ 1) and a model that
issues one tool call, the same call has been issued once consecutively, so
the claim demands REPEATED_CALL at turn 1 with the call never dispatched;
the code instead initialises the repeat counter on the first occurrence
without checking it, dispatches the call, and ends with MAX_TURNS. -/
theorem C1_counterexample_maxRepeatedCalls_one :
    (AgentLoop.run ⟨1, 3, 1⟩
        (fun _ => ⟨none, [⟨"t", [("x", "1")], true⟩]⟩)).stopReason
      ≠ .repeatedCall
    ∧ (AgentLoop.run ⟨1, 3, 1⟩
        (fun _ => ⟨none, [⟨"t", [("x", "1")], true⟩]⟩)).dispatched.length
      = 1 := by
  constructor
  · decide
  · decide

/-- Claim C1 witness: the amended theorem applied at concrete inputs.  In
part 1 the two identical calls of the batch spell their arguments in
opposite key orders and still trip the breaker at the second occurrence of
turn 1, with only the first occurrence dispatched; in part 2 the same call
issued once per turn trips at turn 3 with 2 dispatches; in part 3
alternation ends in MAX_TURNS. -/
theorem C1_repeated_call_breaker_witness :
    (AgentLoop.run ⟨1, 5, 2⟩
        (fun _ => ⟨none, [⟨"t", [("a", "1"), ("b", "2")], true⟩,
                          ⟨"t", [("b", "2"), ("a", "1")], true⟩]⟩)
      = { response := "Stopped: repeated tool call detected",
          stopReason := .repeatedCall, turns := 1,
          toolCalls := (([] : List ScriptCall)
            ++ ([⟨"t", [("a", "1"), ("b", "2")], true⟩,
                 ⟨"t", [("b", "2"), ("a", "1")], true⟩] :
                  List ScriptCall)).map ScriptCall.record,
          dispatched := (([] : List ScriptCall)
            ++ (([⟨"t", [("a", "1"), ("b", "2")], true⟩,
                  ⟨"t", [("b", "2"), ("a", "1")], true⟩] :
                   List ScriptCall).take
                  ((⟨1, 5, 2⟩ : AgentConfig).maxRepeatedCalls - 1))).map
              ScriptCall.drec })
    ∧ (AgentLoop.run ⟨3, 5, 3⟩ (fun _ => ⟨none, [⟨"u", [], true⟩]⟩)
      = { response := "Stopped: repeated tool call detected",
          stopReason := .repeatedCall,
          turns := (⟨3, 5, 3⟩ : AgentConfig).maxRepeatedCalls,
          toolCalls := List.replicate
            (⟨3, 5, 3⟩ : AgentConfig).maxRepeatedCalls
            (ScriptCall.record ⟨"u", [], true⟩),
          dispatched := List.replicate
            ((⟨3, 5, 3⟩ : AgentConfig).maxRepeatedCalls - 1)
            (ScriptCall.drec ⟨"u", [], true⟩) })
    ∧ (AgentLoop.run ⟨2, 5, 2⟩
        (fun _ => ⟨none, [⟨"a", [], true⟩, ⟨"b", [], true⟩]⟩)).stopReason
      = .maxTurns :=
  ⟨C1_repeated_call_breaker.1 ⟨1, 5, 2⟩
      (fun _ => ⟨none, [⟨"t", [("a", "1"), ("b", "2")], true⟩,
                        ⟨"t", [("b", "2"), ("a", "1")], true⟩]⟩)
      [] ([⟨"t", [("a", "1"), ("b", "2")], true⟩,
          ⟨"t", [("b", "2"), ("a", "1")], true⟩] : List ScriptCall)
      (ScriptCall.sig ⟨"t", [("a", "1"), ("b", "2")], true⟩)
      (by decide) (by decide) rfl (by decide) (by decide) (by decide)
      (by decide) (by decide) (by decide),
   C1_repeated_call_breaker.2.1 ⟨3, 5, 3⟩
      (fun _ => ⟨none, [⟨"u", [], true⟩]⟩) (⟨"u", [], true⟩ : ScriptCall)
      (by decide) (by decide) (fun _ => rfl) (by decide),
   C1_repeated_call_breaker.2.2.1 ⟨2, 5, 2⟩
      (fun _ => ⟨none, [⟨"a", [], true⟩, ⟨"b", [], true⟩]⟩)
      (⟨"a", [], true⟩ : ScriptCall) (⟨"b", [], true⟩ : ScriptCall)
      (by decide) (by decide) (by decide) (fun _ => rfl)⟩

/-! ## Claim C2: consecutive-error circuit breaker -/

/-- Claim C2: with `max_consecutive_errors = n`, `run` returns
CONSECUTIVE_ERRORS exactly when `n` dispatched tool calls fail with no
intervening success; failures with different tool names all count, a
success resets the counter, so `n-1` failures + success + `n-1` failures
does not stop the run.  Part 1: `n` failing calls (arbitrary names, chained
distinct signatures) stop the run at the `n`-th failure, all `n` dispatched;
part 2: `n-1` failures, one success, `n-1` failures end in MAX_TURNS, not
CONSECUTIVE_ERRORS; part 3 (exactness, both directions): any run stopping
with CONSECUTIVE_ERRORS has exactly `n` trailing failures in its dispatch
trace, and any run stopping otherwise has fewer than `n`. -/
theorem C2_consecutive_error_breaker :
    (∀ (cfg : AgentConfig) (model : Nat → ModelTurn)
       (cs : List ScriptCall),
       1 ≤ cfg.maxConsecutiveErrors → 1 ≤ cfg.maxTurns →
       (model 0).toolCalls = cs →
       freshChain none cs = true → allFail cs = true →
       cs.length = cfg.maxConsecutiveErrors →
       AgentLoop.run cfg model =
         { response := "Stopped: " ++ toString cfg.maxConsecutiveErrors
             ++ " consecutive errors",
           stopReason := .consecutiveErrors, turns := 1,
           toolCalls := cs.map ScriptCall.record,
           dispatched := cs.map ScriptCall.drec })
    ∧ (∀ (cfg : AgentConfig) (model : Nat → ModelTurn)
         (f1 f2 : List ScriptCall) (su : ScriptCall),
       1 ≤ cfg.maxConsecutiveErrors → cfg.maxTurns = 1 →
       (model 0).toolCalls = f1 ++ su :: f2 →
       freshChain none (f1 ++ su :: f2) = true →
       allFail f1 = true → su.succeeds = true → allFail f2 = true →
       f1.length = cfg.maxConsecutiveErrors - 1 →
       f2.length = cfg.maxConsecutiveErrors - 1 →
       (AgentLoop.run cfg model).stopReason = .maxTurns)
    ∧ (∀ (cfg : AgentConfig) (model : Nat → ModelTurn),
       1 ≤ cfg.maxConsecutiveErrors →
       ((AgentLoop.run cfg model).stopReason = .consecutiveErrors →
         trailFails (AgentLoop.run cfg model).dispatched
           = cfg.maxConsecutiveErrors)
       ∧ ((AgentLoop.run cfg model).stopReason ≠ .consecutiveErrors →
         trailFails (AgentLoop.run cfg model).dispatched
           < cfg.maxConsecutiveErrors)) := by
  refine ⟨?_, ?_, ?_⟩
  · intro cfg model cs hn hT hmodel hfresh hfail hlen
    obtain ⟨T, hT'⟩ : ∃ T, cfg.maxTurns = T + 1 :=
      ⟨cfg.maxTurns - 1, by omega⟩
    have hcs_ne : ¬ cs = [] := by
      intro h
      subst h
      simp only [List.length_nil] at hlen
      omega
    unfold AgentLoop.run
    rw [hT']
    simp only [AgentLoop.runAux, hmodel]
    rw [if_neg hcs_ne]
    obtain ⟨s', heq, hlog, hdisp, hce, hfr⟩ :=
      processCalls_fresh_fail_stop cfg cs LoopState.init hfresh hfail
        (by show (0 : Nat) < cfg.maxConsecutiveErrors; omega)
        (by show cfg.maxConsecutiveErrors ≤ 0 + cs.length; omega)
    rw [heq]
    show ({ response := "Stopped: " ++ toString cfg.maxConsecutiveErrors
              ++ " consecutive errors",
            stopReason := .consecutiveErrors, turns := 0 + 1,
            toolCalls := s'.toolCallsLog,
            dispatched := s'.dispatched } : AgentResult) = _
    have hsub : cfg.maxConsecutiveErrors - LoopState.init.consecutiveErrors
        = cs.length := by
      show cfg.maxConsecutiveErrors - 0 = cs.length
      omega
    simp only [AgentResult.mk.injEq]
    refine ⟨trivial, trivial, trivial, ?_, ?_⟩
    · rw [hlog, hsub, List.take_length]
      simp [LoopState.init]
    · rw [hdisp, hsub, List.take_length]
      simp [LoopState.init]
  · intro cfg model f1 f2 su hn hT1 hmodel hfresh hf1 hsu hf2 hlen1 hlen2
    rw [freshChain_append, Bool.and_eq_true] at hfresh
    obtain ⟨hfr1, hfr2⟩ := hfresh
    simp only [freshChain, Bool.and_eq_true, decide_eq_true_eq] at hfr2
    obtain ⟨hne_su, hfr2'⟩ := hfr2
    unfold AgentLoop.run
    rw [hT1]
    simp only [AgentLoop.runAux, hmodel]
    rw [if_neg (by simp)]
    rw [processCalls_append_cont cfg f1 (su :: f2) LoopState.init _
      (processCalls_fresh_fail cfg f1 LoopState.init hfr1 hf1
        (by show (0 : Nat) + f1.length < cfg.maxConsecutiveErrors; omega))]
    set SP1 : LoopState :=
      { lastToolCall := lastSigOpt LoopState.init.lastToolCall f1,
        repeatedCount := if f1.isEmpty then LoopState.init.repeatedCount
                         else 1,
        consecutiveErrors := LoopState.init.consecutiveErrors + f1.length,
        toolCallsLog := LoopState.init.toolCallsLog
          ++ f1.map ScriptCall.record,
        dispatched := LoopState.init.dispatched ++ f1.map ScriptCall.drec,
        finalResponse := LoopState.init.finalResponse } with hSP1
    have hne2 : SP1.lastToolCall ≠ some su.sig := by
      rw [hSP1]
      exact hne_su
    rw [processCalls_cons_cont cfg su f2 SP1 _
      (procCall_fresh_succ cfg su SP1 hne2 hsu)]
    rw [processCalls_fresh_fail cfg f2
      { lastToolCall := some su.sig, repeatedCount := 1,
        consecutiveErrors := 0,
        toolCallsLog := SP1.toolCallsLog ++ [su.record],
        dispatched := SP1.dispatched ++ [su.drec],
        finalResponse := SP1.finalResponse }
      (by show freshChain (some su.sig) f2 = true; exact hfr2')
      hf2
      (by show (0 : Nat) + f2.length < cfg.maxConsecutiveErrors; omega)]
  · intro cfg model hn
    exact runAux_errExact cfg model cfg.maxTurns 0 LoopState.init
      ⟨rfl, by show (0 : Nat) < cfg.maxConsecutiveErrors; omega⟩

/-- Claim C2 witness: the theorem applied at concrete inputs.  Two failing
calls with different tool names stop a run with
`max_consecutive_errors = 2` at turn 1 with both failures dispatched; one
failure, one success, one failure ends in MAX_TURNS; the exactness part
evaluates to exactly 2 trailing failures on the stopped run. -/
theorem C2_consecutive_error_breaker_witness :
    (AgentLoop.run ⟨1, 2, 5⟩
        (fun _ => ⟨none, [⟨"a", [], false⟩, ⟨"b", [], false⟩]⟩)
      = { response := "Stopped: "
            ++ toString (⟨1, 2, 5⟩ : AgentConfig).maxConsecutiveErrors
            ++ " consecutive errors",
          stopReason := .consecutiveErrors, turns := 1,
          toolCalls := ([⟨"a", [], false⟩, ⟨"b", [], false⟩] :
            List ScriptCall).map ScriptCall.record,
          dispatched := ([⟨"a", [], false⟩, ⟨"b", [], false⟩] :
            List ScriptCall).map ScriptCall.drec })
    ∧ (AgentLoop.run ⟨1, 2, 5⟩
        (fun _ => ⟨none, [⟨"a", [], false⟩, ⟨"s", [], true⟩,
                          ⟨"b", [], false⟩]⟩)).stopReason = .maxTurns
    ∧ trailFails (AgentLoop.run ⟨1, 2, 5⟩
        (fun _ => ⟨none, [⟨"a", [], false⟩, ⟨"b", [], false⟩]⟩)).dispatched
      = (⟨1, 2, 5⟩ : AgentConfig).maxConsecutiveErrors :=
  ⟨C2_consecutive_error_breaker.1 ⟨1, 2, 5⟩
      (fun _ => ⟨none, [⟨"a", [], false⟩, ⟨"b", [], false⟩]⟩)
      ([⟨"a", [], false⟩, ⟨"b", [], false⟩] : List ScriptCall)
      (by decide) (by decide) rfl (by decide) (by decide) (by decide),
   C2_consecutive_error_breaker.2.1 ⟨1, 2, 5⟩
      (fun _ => ⟨none, [⟨"a", [], false⟩, ⟨"s", [], true⟩,
                        ⟨"b", [], false⟩]⟩)
      ([⟨"a", [], false⟩] : List ScriptCall)
      ([⟨"b", [], false⟩] : List ScriptCall)
      (⟨"s", [], true⟩ : ScriptCall)
      (by decide) rfl rfl (by decide) (by decide) (by decide) (by decide)
      (by decide) (by decide),
   (C2_consecutive_error_breaker.2.2 ⟨1, 2, 5⟩
      (fun _ => ⟨none, [⟨"a", [], false⟩, ⟨"b", [], false⟩]⟩)
      (by decide)).1 (by decide)⟩

/-! ## Claim C3: MAX_TURNS exit -/

/-- Claim C3 (amended): if the model requests at least one tool call on
every turn and neither circuit breaker trips, `run` returns after exactly
`max_turns` turns with stop_reason MAX_TURNS and `turns = max_turns`, and
its response field is always the fallback literal "Max turns reached" —
assistant text accompanying tool calls is never recorded as the final
response (`final_response` is only assigned on the no-tool-call exit, which
returns immediately), so the "last assistant text seen" branch of the
original claim is unreachable.  The second part shows `run` never exceeds
`max_turns` on any model whatsoever. -/
theorem C3_max_turns_exit :
    (∀ (cfg : AgentConfig) (model : Nat → ModelTurn),
       (∀ t, t < cfg.maxTurns → (model t).toolCalls ≠ []) →
       (AgentLoop.run cfg model).stopReason ≠ .repeatedCall →
       (AgentLoop.run cfg model).stopReason ≠ .consecutiveErrors →
       (AgentLoop.run cfg model).stopReason = .maxTurns
       ∧ (AgentLoop.run cfg model).turns = cfg.maxTurns
       ∧ (AgentLoop.run cfg model).response = "Max turns reached")
    ∧ (∀ (cfg : AgentConfig) (model : Nat → ModelTurn),
       (AgentLoop.run cfg model).turns ≤ cfg.maxTurns) := by
  constructor
  · intro cfg model hcalls hnr hne
    exact runAux_maxTurns cfg model cfg.maxTurns 0 LoopState.init
      (fun t _ ht2 => hcalls t (by omega)) rfl hnr hne
  · intro cfg model
    exact runAux_turns_le cfg model cfg.maxTurns 0 LoopState.init
      (by omega)

/-- Claim C3, counterexample to the claim as stated: a model that produces
assistant text "hello" alongside a successful tool call on its only turn.
The claim says the MAX_TURNS response is the last assistant text seen
("hello"); the code returns the fallback literal "Max turns reached"
because text accompanying tool calls is never recorded. -/
theorem C3_counterexample_text_with_tool_calls :
    ((fun _ => ⟨some "hello", [⟨"t", [], true⟩]⟩ : Nat → ModelTurn) 0).content
      = some "hello"
    ∧ (AgentLoop.run ⟨1, 3, 5⟩
        (fun _ => ⟨some "hello", [⟨"t", [], true⟩]⟩)).stopReason = .maxTurns
    ∧ (AgentLoop.run ⟨1, 3, 5⟩
        (fun _ => ⟨some "hello", [⟨"t", [], true⟩]⟩)).response
      = "Max turns reached"
    ∧ (AgentLoop.run ⟨1, 3, 5⟩
        (fun _ => ⟨some "hello", [⟨"t", [], true⟩]⟩)).response ≠ "hello" := by
  refine ⟨rfl, by decide, by decide, by decide⟩

/-- Claim C3 witness: the amended theorem applied to a model that issues a
fresh successful call every turn with `max_turns = 2`, and the
never-exceeds part applied to the same run. -/
theorem C3_max_turns_exit_witness :
    ((AgentLoop.run ⟨2, 9, 9⟩
        (fun t => ⟨some "text", [⟨"t" ++ toString t, [], true⟩]⟩)).stopReason
        = .maxTurns
      ∧ (AgentLoop.run ⟨2, 9, 9⟩
        (fun t => ⟨some "text", [⟨"t" ++ toString t, [], true⟩]⟩)).turns
        = (⟨2, 9, 9⟩ : AgentConfig).maxTurns
      ∧ (AgentLoop.run ⟨2, 9, 9⟩
        (fun t => ⟨some "text", [⟨"t" ++ toString t, [], true⟩]⟩)).response
        = "Max turns reached")
    ∧ (AgentLoop.run ⟨2, 9, 9⟩
        (fun t => ⟨some "text", [⟨"t" ++ toString t, [], true⟩]⟩)).turns
      ≤ (⟨2, 9, 9⟩ : AgentConfig).maxTurns :=
  ⟨C3_max_turns_exit.1 ⟨2, 9, 9⟩
      (fun t => ⟨some "text", [⟨"t" ++ toString t, [], true⟩]⟩)
      (fun t ht => by simp) (by decide) (by decide),
   C3_max_turns_exit.2 ⟨2, 9, 9⟩
      (fun t => ⟨some "text", [⟨"t" ++ toString t, [], true⟩]⟩)⟩

/-! ## Skill system (src/rumi/skills/base.py, src/rumi/skills/manager.py) -/

/-- Origin of a skill (`SkillSource` enum). -/
inductive SkillSource where
  | BUNDLED
  | USER
  | WORKSPACE
  deriving DecidableEq

/-- Priority of a source (`SkillSource.priority`): higher overrides lower. -/
def SkillSource.priority : SkillSource → Nat
  | .BUNDLED => 1
  | .USER => 2
  | .WORKSPACE => 3

/-- A loaded skill, reduced to the metadata fields the verified operations
read (`metadata.name`, `metadata.enabled`, `metadata.source`; the
description stands in for the rest of the metadata and the body). -/
structure Skill where
  name : String
  description : String
  enabled : Bool
  source : SkillSource
  deriving DecidableEq

/-- The mutable maps of a `SkillManager` (`_registry`, `_mtimes`,
`_skill_paths`) plus the runtime `config.disabled_skills` list. -/
structure SkillManagerState where
  registry : List (String × Skill)
  mtimes : List (String × Nat)
  skillPaths : List (String × String)
  disabledSkills : List String
  deriving DecidableEq

/-- A manager with empty maps. -/
def SkillManagerState.empty : SkillManagerState := ⟨[], [], [], []⟩

/-- Mirror of `SkillManager.get`. -/
def SkillManagerState.get (m : SkillManagerState) (name : String) :
    Option Skill :=
  getk m.registry name

/-- Mirror of `SkillManager.is_skill_available`: registered, enabled in
metadata, and not in the runtime disabled list. -/
def SkillManagerState.isSkillAvailable (m : SkillManagerState)
    (name : String) : Bool :=
  match m.get name with
  | none => false
  | some sk =>
      if sk.enabled = false then false
      else if m.disabledSkills.contains name then false
      else true

/-- Mirror of `SkillManager.register(skill, skill_dir)`.  `mtime` is
`skill_dir / "SKILL.md"`'s modification time when that file exists
(`skill_md.exists()` then `stat().st_mtime`), `none` otherwise. -/
def SkillManagerState.register (m : SkillManagerState) (sk : Skill)
    (skillDir : Option String) (mtime : Option Nat) : SkillManagerState :=
  let shouldRegister :=
    match getk m.registry sk.name with
    | none => true
    | some existing =>
        decide (existing.source.priority < sk.source.priority)
  if shouldRegister then
    let m1 := { m with registry := setk m.registry sk.name sk }
    match skillDir with
    | none => m1
    | some d =>
        let m2 := { m1 with skillPaths := setk m1.skillPaths sk.name d }
        match mtime with
        | none => m2
        | some t => { m2 with mtimes := setk m2.mtimes sk.name t }
  else m

/-- Mirror of `SkillManager.unregister`: pops the name from all three
maps. -/
def SkillManagerState.unregister (m : SkillManagerState) (name : String) :
    SkillManagerState :=
  { m with registry := remk m.registry name,
           mtimes := remk m.mtimes name,
           skillPaths := remk m.skillPaths name }

/-- Mirror of `SkillManager.clear_cache`. -/
def SkillManagerState.clearCache (m : SkillManagerState) :
    SkillManagerState :=
  { m with registry := [], mtimes := [], skillPaths := [] }

/-- Mirror of `SkillManager.discover`: the successfully loaded skills of
the scanned directories arrive, in scan order (bundled, then user, then
workspace), as `(skill, skill_dir, SKILL.md mtime)` entries, each passed to
`register`; parse failures are logged and skipped and therefore do not
appear in the list. -/
def SkillManagerState.discover (m : SkillManagerState)
    (entries : List (Skill × String × Option Nat)) : SkillManagerState :=
  entries.foldl (fun acc e => acc.register e.1 (some e.2.1) e.2.2) m

/-- File-system oracle for `refresh_changed`: whether a tracked directory
still has a SKILL.md, its current mtime, and the outcome of
`load_skill(skill_dir, source)` (`none` = parse/load error, which is
logged and skipped). -/
structure FsView where
  present : String → Bool
  mtime : String → Nat
  load : String → SkillSource → Option Skill

/-- The iteration of `SkillManager.refresh_changed` over a snapshot of
`_skill_paths.items()`.  A missing SKILL.md unregisters the skill; an
increased mtime reloads it in place under its original source tier and
records the name; stat errors and unchanged mtimes leave it untouched. -/
def SkillManagerState.refreshChangedGo (fs : FsView) :
    List (String × String) → SkillManagerState → List String →
    SkillManagerState × List String
  | [], m, reloaded => (m, reloaded)
  | (name, dir) :: rest, m, reloaded =>
      if fs.present dir then
        let currentMtime := fs.mtime dir
        let cachedMtime := (getk m.mtimes name).getD 0
        if cachedMtime < currentMtime then
          match getk m.registry name with
          | none => SkillManagerState.refreshChangedGo fs rest m reloaded
          | some sk =>
              match fs.load dir sk.source with
              | none => SkillManagerState.refreshChangedGo fs rest m reloaded
              | some newSk =>
                  SkillManagerState.refreshChangedGo fs rest
                    { m with registry := setk m.registry name newSk,
                             mtimes := setk m.mtimes name currentMtime }
                    (reloaded ++ [name])
        else SkillManagerState.refreshChangedGo fs rest m reloaded
      else
        SkillManagerState.refreshChangedGo fs rest (m.unregister name)
          reloaded

/-- Mirror of `SkillManager.refresh_changed`. -/
def SkillManagerState.refreshChanged (m : SkillManagerState) (fs : FsView) :
    SkillManagerState × List String :=
  SkillManagerState.refreshChangedGo fs m.skillPaths m []

/-! ## Tool registry (src/rumi/tools/registry.py, src/rumi/tools/base.py) -/

/-- Result from tool execution (`ToolResult` dataclass; the metadata field
is not read by any verified operation and is omitted). -/
structure ToolResult where
  success : Bool
  output : String
  error : Option String
  deriving DecidableEq

/-- A registered tool: its declared required parameters (the
required-field part of `validate_args`; the claims under verification do
not exercise the primitive type checks, and values are modelled as
strings), its `execute` (which may raise: `.error` = exception), and the
`skill_manager` attribute `dispatch` reads via `getattr` (present on
`SkillExecutorTool`, absent on ordinary tools). -/
structure RTool where
  requiredParams : List String
  exec : List (String × String) → Except String ToolResult
  skillManager : Option SkillManagerState

/-- Mirror of `Tool.validate_args` (required-field presence, first missing
field wins). -/
def RTool.validateArgs (tool : RTool) (args : List (String × String)) :
    Bool × Option String :=
  match tool.requiredParams.find? (fun f => (getk args f).isNone) with
  | some f => (false, some ("Missing required argument: " ++ f))
  | none => (true, none)

/-- The `_tools` map of a `ToolRegistry`. -/
structure ToolRegistryState where
  tools : List (String × RTool)

/-- The skill-input extraction of the `use_skill` redirect:
`args.get("skill_input") or args.get("message") or args.get("input") or ""`
— Python `or` takes the first truthy (non-empty) value, in exactly this
order. -/
def extractSkillInput (args : List (String × String)) : String :=
  if (getk args "skill_input").getD "" ≠ "" then
    (getk args "skill_input").getD ""
  else if (getk args "message").getD "" ≠ "" then
    (getk args "message").getD ""
  else if (getk args "input").getD "" ≠ "" then
    (getk args "input").getD ""
  else ""

/-- Mirror of `ToolRegistry.dispatch`.  The first component is the result
(`.error` = an exception that propagates to the caller); the second is the
trace of tools whose `execute` was invoked.  Note the skill-fallback
redirect invokes `use_skill_tool.execute` outside the try/except, so its
exceptions pass through, while the normal path converts exceptions to
failed ToolResults. -/
def ToolRegistryState.dispatch (reg : ToolRegistryState) (toolName : String)
    (args : List (String × String)) :
    Except String ToolResult × List String :=
  match getk reg.tools toolName with
  | none =>
      match getk reg.tools "use_skill" with
      | some useSkillTool =>
          match useSkillTool.skillManager with
          | some mgr =>
              if mgr.isSkillAvailable toolName then
                (useSkillTool.exec
                  [("skill_name", toolName),
                   ("skill_input", extractSkillInput args)],
                 ["use_skill"])
              else
                (.ok ⟨false, "", some ("Unknown tool: " ++ toolName)⟩, [])
          | none => (.ok ⟨false, "", some ("Unknown tool: " ++ toolName)⟩, [])
      | none => (.ok ⟨false, "", some ("Unknown tool: " ++ toolName)⟩, [])
  | some tool =>
      match tool.validateArgs args with
      | (false, err) => (.ok ⟨false, "", err⟩, [])
      | (true, _) =>
          match tool.exec args with
          | .ok r => (.ok r, [toolName])
          | .error e =>
              (.ok ⟨false, "", some ("Tool execution failed: " ++ e)⟩,
               [toolName])

/-! ## Claim C5: skill-fallback redirection and unknown tools -/

/-- Claim C5 (amended): when `dispatch` is called with an unregistered
name, a registered `use_skill` tool carrying a skill manager, and a skill
of that exact name available, the call is redirected to the skill executor
with the first non-empty of args' `skill_input`, `message`, `input` fields
— in that order (the original claim's order `input`/`message`/`skill_input`
is reversed, and presence alone does not suffice: Python `or` skips falsy
values), defaulting to the empty string; otherwise dispatch returns
`success=false` with error `"Unknown tool: <name>"` and no tool's execute
is ever called (empty execution trace). -/
theorem C5_dispatch_skill_fallback :
    (∀ (reg : ToolRegistryState) (name : String)
       (args : List (String × String)) (ust : RTool)
       (mgr : SkillManagerState),
       getk reg.tools name = none →
       getk reg.tools "use_skill" = some ust →
       ust.skillManager = some mgr →
       mgr.isSkillAvailable name = true →
       reg.dispatch name args =
         (ust.exec [("skill_name", name),
                    ("skill_input", extractSkillInput args)],
          ["use_skill"]))
    ∧ (∀ (args : List (String × String)) (v : String),
       getk args "skill_input" = some v → v ≠ "" →
       extractSkillInput args = v)
    ∧ (∀ (args : List (String × String)) (v : String),
       (getk args "skill_input").getD "" = "" →
       getk args "message" = some v → v ≠ "" →
       extractSkillInput args = v)
    ∧ (∀ (args : List (String × String)) (v : String),
       (getk args "skill_input").getD "" = "" →
       (getk args "message").getD "" = "" →
       getk args "input" = some v → v ≠ "" →
       extractSkillInput args = v)
    ∧ (∀ (args : List (String × String)),
       (getk args "skill_input").getD "" = "" →
       (getk args "message").getD "" = "" →
       (getk args "input").getD "" = "" →
       extractSkillInput args = "")
    ∧ (∀ (reg : ToolRegistryState) (name : String)
       (args : List (String × String)),
       getk reg.tools name = none →
       (∀ ust, getk reg.tools "use_skill" = some ust →
         ∀ mgr, ust.skillManager = some mgr →
         mgr.isSkillAvailable name = false) →
       reg.dispatch name args =
         (.ok ⟨false, "", some ("Unknown tool: " ++ name)⟩, [])) := by
  refine ⟨?_, ?_, ?_, ?_, ?_, ?_⟩
  · intro reg name args ust mgr h1 h2 h3 h4
    simp [ToolRegistryState.dispatch, h1, h2, h3, h4]
  · intro args v hv hne
    simp [extractSkillInput, hv, hne]
  · intro args v h0 hv hne
    simp [extractSkillInput, h0, hv, hne]
  · intro args v h0 h1 hv hne
    simp [extractSkillInput, h0, h1, hv, hne]
  · intro args h0 h1 h2
    simp [extractSkillInput, h0, h1, h2]
  · intro reg name args h1 h2
    cases hu : getk reg.tools "use_skill" with
    | none => simp [ToolRegistryState.dispatch, h1, hu]
    | some ust =>
        cases hm : ust.skillManager with
        | none => simp [ToolRegistryState.dispatch, h1, hu, hm]
        | some mgr =>
            have hav := h2 ust hu mgr hm
            simp [ToolRegistryState.dispatch, h1, hu, hm, hav]

/-- Claim C5, counterexample to the claim as stated: the claim says the
redirect takes the first present of `input`, `message`, `skill_input`, in
that order.  With both `input = "a"` and `skill_input = "b"` present, the
code (`args.get("skill_input") or args.get("message") or
args.get("input")`) hands the executor `"b"`, not `"a"`. -/
theorem C5_counterexample_input_priority_order :
    (ToolRegistryState.dispatch
      ⟨[("use_skill",
         ⟨["skill_name"],
          fun as => .ok ⟨true, (getk as "skill_input").getD "", none⟩,
          some ⟨[("foo", ⟨"foo", "d", true, .BUNDLED⟩)], [], [], []⟩⟩)]⟩
      "foo" [("input", "a"), ("skill_input", "b")]).1
      = .ok ⟨true, "b", none⟩
    ∧ ("b" : String) ≠ "a" := by
  exact ⟨rfl, by decide⟩

/-- Claim C5 witness: the amended theorem applied at concrete inputs: a
redirect that echoes its `skill_input`, the four extraction cases, and a
truly unknown tool name. -/
theorem C5_dispatch_skill_fallback_witness :
    (ToolRegistryState.dispatch
      ⟨[("use_skill",
         ⟨["skill_name"],
          fun as => .ok ⟨true, (getk as "skill_input").getD "", none⟩,
          some ⟨[("foo", ⟨"foo", "d", true, .BUNDLED⟩)], [], [], []⟩⟩)]⟩
      "foo" [("message", "m")]
      = ((⟨["skill_name"],
          fun as => .ok ⟨true, (getk as "skill_input").getD "", none⟩,
          some ⟨[("foo", ⟨"foo", "d", true, .BUNDLED⟩)], [], [], []⟩⟩ :
            RTool).exec
          [("skill_name", "foo"),
           ("skill_input", extractSkillInput [("message", "m")])],
         ["use_skill"]))
    ∧ extractSkillInput [("input", "a"), ("skill_input", "b")] = "b"
    ∧ extractSkillInput [("skill_input", ""), ("message", "m")] = "m"
    ∧ extractSkillInput [("input", "a")] = "a"
    ∧ extractSkillInput [("other", "x")] = ""
    ∧ ToolRegistryState.dispatch ⟨[]⟩ "nope" [("x", "1")]
      = (.ok ⟨false, "", some ("Unknown tool: " ++ "nope")⟩, []) :=
  ⟨C5_dispatch_skill_fallback.1
      ⟨[("use_skill",
         ⟨["skill_name"],
          fun as => .ok ⟨true, (getk as "skill_input").getD "", none⟩,
          some ⟨[("foo", ⟨"foo", "d", true, .BUNDLED⟩)], [], [], []⟩⟩)]⟩
      "foo" [("message", "m")]
      ⟨["skill_name"],
       fun as => .ok ⟨true, (getk as "skill_input").getD "", none⟩,
       some ⟨[("foo", ⟨"foo", "d", true, .BUNDLED⟩)], [], [], []⟩⟩
      ⟨[("foo", ⟨"foo", "d", true, .BUNDLED⟩)], [], [], []⟩
      rfl rfl rfl (by decide),
   C5_dispatch_skill_fallback.2.1 [("input", "a"), ("skill_input", "b")]
      "b" rfl (by decide),
   C5_dispatch_skill_fallback.2.2.1 [("skill_input", ""), ("message", "m")]
      "m" rfl rfl (by decide),
   C5_dispatch_skill_fallback.2.2.2.1 [("input", "a")] "a" rfl rfl rfl
      (by decide),
   C5_dispatch_skill_fallback.2.2.2.2.1 [("other", "x")] rfl rfl rfl,
   C5_dispatch_skill_fallback.2.2.2.2.2 ⟨[]⟩ "nope" [("x", "1")] rfl
      (fun ust hust => Option.noConfusion hust)⟩

/-! ## Claim C6: dispatch and exceptions -/

/-- Claim C6 (amended): `dispatch` catches any exception raised by a tool
executed through normal name lookup and converts it into a failed
ToolResult with a descriptive message, and the unknown-tool paths return a
result rather than raising; but an exception raised while executing the
skill-fallback redirection propagates to the caller — the redirect call
sits outside the try/except (see the counterexample). -/
theorem C6_dispatch_exception_handling :
    (∀ (reg : ToolRegistryState) (name : String)
       (args : List (String × String)) (tool : RTool),
       getk reg.tools name = some tool →
       ∃ r, (reg.dispatch name args).1 = .ok r)
    ∧ (∀ (reg : ToolRegistryState) (name : String)
         (args : List (String × String)) (tool : RTool) (e : String),
       getk reg.tools name = some tool →
       (tool.validateArgs args).1 = true →
       tool.exec args = .error e →
       reg.dispatch name args =
         (.ok ⟨false, "", some ("Tool execution failed: " ++ e)⟩, [name]))
    ∧ (∀ (reg : ToolRegistryState) (name : String)
         (args : List (String × String)),
       getk reg.tools name = none →
       (∀ ust, getk reg.tools "use_skill" = some ust →
         ∀ mgr, ust.skillManager = some mgr →
         mgr.isSkillAvailable name = false) →
       ∃ r, (reg.dispatch name args).1 = .ok r)
    ∧ (∀ (reg : ToolRegistryState) (name : String)
         (args : List (String × String)) (ust : RTool)
         (mgr : SkillManagerState) (e : String),
       getk reg.tools name = none →
       getk reg.tools "use_skill" = some ust →
       ust.skillManager = some mgr →
       mgr.isSkillAvailable name = true →
       ust.exec [("skill_name", name),
                 ("skill_input", extractSkillInput args)] = .error e →
       (reg.dispatch name args).1 = .error e) := by
  refine ⟨?_, ?_, ?_, ?_⟩
  · intro reg name args tool h
    cases hv : tool.validateArgs args with
    | mk b err =>
        cases b
        · exact ⟨⟨false, "", err⟩, by
            simp [ToolRegistryState.dispatch, h, hv]⟩
        · cases he : tool.exec args with
          | ok r =>
              exact ⟨r, by simp [ToolRegistryState.dispatch, h, hv, he]⟩
          | error e =>
              exact ⟨⟨false, "", some ("Tool execution failed: " ++ e)⟩,
                by simp [ToolRegistryState.dispatch, h, hv, he]⟩
  · intro reg name args tool e h hval he
    cases hv : tool.validateArgs args with
    | mk b err =>
        rw [hv] at hval
        simp only at hval
        subst hval
        simp [ToolRegistryState.dispatch, h, hv, he]
  · intro reg name args h1 h2
    cases hu : getk reg.tools "use_skill" with
    | none =>
        exact ⟨⟨false, "", some ("Unknown tool: " ++ name)⟩,
          by simp [ToolRegistryState.dispatch, h1, hu]⟩
    | some ust =>
        cases hm : ust.skillManager with
        | none =>
            exact ⟨⟨false, "", some ("Unknown tool: " ++ name)⟩,
              by simp [ToolRegistryState.dispatch, h1, hu, hm]⟩
        | some mgr =>
            have hav := h2 ust hu mgr hm
            exact ⟨⟨false, "", some ("Unknown tool: " ++ name)⟩,
              by simp [ToolRegistryState.dispatch, h1, hu, hm, hav]⟩
  · intro reg name args ust mgr e h1 h2 h3 h4 he
    simp [ToolRegistryState.dispatch, h1, h2, h3, h4, he]

/-- Claim C6, counterexample to the claim as stated: a skill-fallback
redirect whose executor raises.  `dispatch("foo", {})` redirects to
`use_skill` (skill "foo" is available), the executor raises, and the
exception propagates out of `dispatch` to its caller instead of being
converted to a failed ToolResult. -/
theorem C6_counterexample_redirect_exception_propagates :
    (ToolRegistryState.dispatch
      ⟨[("use_skill",
         ⟨["skill_name"], fun _ => .error "boom",
          some ⟨[("foo", ⟨"foo", "d", true, .BUNDLED⟩)], [], [], []⟩⟩)]⟩
      "foo" []).1 = .error "boom" := rfl

/-- Claim C6 witness: the amended theorem applied at concrete inputs: a
raising tool reached by normal lookup is converted to a failed result, an
unknown name returns a result, and a raising redirect propagates. -/
theorem C6_dispatch_exception_handling_witness :
    (∃ r, (ToolRegistryState.dispatch
        ⟨[("t", ⟨[], fun _ => .error "kaput", none⟩)]⟩ "t" []).1 = .ok r)
    ∧ (ToolRegistryState.dispatch
        ⟨[("t", ⟨[], fun _ => .error "kaput", none⟩)]⟩ "t" []
      = (.ok ⟨false, "", some ("Tool execution failed: " ++ "kaput")⟩,
         ["t"]))
    ∧ (∃ r, (ToolRegistryState.dispatch ⟨[]⟩ "ghost" []).1 = .ok r)
    ∧ (ToolRegistryState.dispatch
        ⟨[("use_skill",
           ⟨["skill_name"], fun _ => .error "boom2",
            some ⟨[("bar", ⟨"bar", "d", true, .USER⟩)], [], [], []⟩⟩)]⟩
        "bar" [("input", "i")]).1 = .error "boom2" :=
  ⟨C6_dispatch_exception_handling.1
      ⟨[("t", ⟨[], fun _ => .error "kaput", none⟩)]⟩ "t" []
      ⟨[], fun _ => .error "kaput", none⟩ rfl,
   C6_dispatch_exception_handling.2.1
      ⟨[("t", ⟨[], fun _ => .error "kaput", none⟩)]⟩ "t" []
      ⟨[], fun _ => .error "kaput", none⟩ "kaput" rfl rfl rfl,
   C6_dispatch_exception_handling.2.2.1 ⟨[]⟩ "ghost" [] rfl
      (fun ust hust => Option.noConfusion hust),
   C6_dispatch_exception_handling.2.2.2
      ⟨[("use_skill",
         ⟨["skill_name"], fun _ => .error "boom2",
          some ⟨[("bar", ⟨"bar", "d", true, .USER⟩)], [], [], []⟩⟩)]⟩
      "bar" [("input", "i")]
      ⟨["skill_name"], fun _ => .error "boom2",
       some ⟨[("bar", ⟨"bar", "d", true, .USER⟩)], [], [], []⟩⟩
      ⟨[("bar", ⟨"bar", "d", true, .USER⟩)], [], [], []⟩
      "boom2" rfl rfl rfl (by decide) rfl⟩

/-! ## Claim C7: skill registration precedence -/

theorem register_registry (m : SkillManagerState) (sk : Skill)
    (d : Option String) (t : Option Nat) :
    (m.register sk d t).registry =
      match getk m.registry sk.name with
      | none => setk m.registry sk.name sk
      | some e => if e.source.priority < sk.source.priority
                  then setk m.registry sk.name sk else m.registry := by
  unfold SkillManagerState.register
  cases hex : getk m.registry sk.name with
  | none =>
      simp only [hex, if_true]
      cases d with
      | none => rfl
      | some dd => cases t <;> rfl
  | some e =>
      by_cases hpr : e.source.priority < sk.source.priority
      · simp only [hex, hpr, decide_eq_true_eq, if_pos]
        cases d with
        | none => rfl
        | some dd => cases t <;> rfl
      · simp only [hex, hpr, decide_eq_true_eq, if_neg, if_false]

theorem SkillSource.priority_ne (s s' : SkillSource) (h : s ≠ s') :
    s.priority ≠ s'.priority := by
  cases s <;> cases s' <;> simp_all [SkillSource.priority]

/-- Claim C7: `SkillManager.register` replaces an existing entry of the
same name only when the new skill's source priority is strictly greater
(BUNDLED=1 < USER=2 < WORKSPACE=3); equal or lower priority never
replaces; other names are untouched; consequently for two same-named
skills from different tiers, registering them in either order leaves the
registry holding the higher-tier skill — the final registry is independent
of registration order across tiers. -/
theorem C7_register_precedence :
    (∀ (m : SkillManagerState) (sk : Skill) (d : Option String)
       (t : Option Nat),
       getk (m.register sk d t).registry sk.name =
         some (match getk m.registry sk.name with
               | none => sk
               | some e => if e.source.priority < sk.source.priority
                           then sk else e))
    ∧ (∀ (m : SkillManagerState) (sk : Skill) (d : Option String)
         (t : Option Nat) (n : String), n ≠ sk.name →
       getk (m.register sk d t).registry n = getk m.registry n)
    ∧ (∀ (m : SkillManagerState) (a b : Skill) (da db : Option String)
         (ta tb : Option Nat),
       a.name = b.name → a.source ≠ b.source →
       getk m.registry a.name = none →
       ((m.register a da ta).register b db tb).registry
         = ((m.register b db tb).register a da ta).registry
       ∧ getk ((m.register a da ta).register b db tb).registry a.name
         = some (if a.source.priority < b.source.priority then b else a)) := by
  refine ⟨?_, ?_, ?_⟩
  · intro m sk d t
    rw [register_registry]
    cases hex : getk m.registry sk.name with
    | none => simp [getk_setk_self]
    | some e =>
        by_cases hpr : e.source.priority < sk.source.priority
        · simp [hpr, getk_setk_self]
        · simp [hpr, hex]
  · intro m sk d t n hn
    rw [register_registry]
    cases hex : getk m.registry sk.name with
    | none => simp [getk_setk_of_ne _ _ _ _ hn]
    | some e =>
        by_cases hpr : e.source.priority < sk.source.priority
        · simp [hpr, getk_setk_of_ne _ _ _ _ hn]
        · simp [hpr]
  · intro m a b da db ta tb hname hsrc hnone
    have hpr := SkillSource.priority_ne a.source b.source hsrc
    have hA1 : (m.register a da ta).registry = setk m.registry a.name a := by
      rw [register_registry, hnone]
    have hB1 : (m.register b db tb).registry = setk m.registry a.name b := by
      rw [register_registry, ← hname, hnone]
    have hlookA : getk (m.register a da ta).registry b.name = some a := by
      rw [hA1, ← hname, getk_setk_self]
    have hlookB : getk (m.register b db tb).registry a.name = some b := by
      rw [hB1, getk_setk_self]
    have hAB : ((m.register a da ta).register b db tb).registry =
        if a.source.priority < b.source.priority
        then setk (m.register a da ta).registry b.name b
        else (m.register a da ta).registry := by
      rw [register_registry, hlookA]
    have hBA : ((m.register b db tb).register a da ta).registry =
        if b.source.priority < a.source.priority
        then setk (m.register b db tb).registry a.name a
        else (m.register b db tb).registry := by
      rw [register_registry, hlookB]
    by_cases hlt : a.source.priority < b.source.priority
    · have hnlt : ¬ b.source.priority < a.source.priority := by omega
      constructor
      · rw [hAB, if_pos hlt, hBA, if_neg hnlt, hA1, hB1, ← hname,
          setk_setk_self]
      · rw [hAB, if_pos hlt, hA1, ← hname, setk_setk_self, getk_setk_self,
          if_pos hlt]
    · have hlt' : b.source.priority < a.source.priority := by omega
      constructor
      · rw [hAB, if_neg hlt, hBA, if_pos hlt', hA1, hB1,
          setk_setk_self]
      · rw [hAB, if_neg hlt, hA1, getk_setk_self, if_neg hlt]

/-- Claim C7 witness: the theorem applied at concrete inputs: a WORKSPACE
skill replaces a BUNDLED one of the same name; the lower tier never
replaces back; registering BUNDLED then USER or USER then BUNDLED both
leave the USER version. -/
theorem C7_register_precedence_witness :
    (getk ((SkillManagerState.empty.register
        ⟨"s", "old", true, .BUNDLED⟩ none none).register
        ⟨"s", "new", true, .WORKSPACE⟩ none none).registry "s"
      = some (match getk (SkillManagerState.empty.register
          ⟨"s", "old", true, .BUNDLED⟩ none none).registry "s" with
          | none => (⟨"s", "new", true, .WORKSPACE⟩ : Skill)
          | some e => if e.source.priority
              < (⟨"s", "new", true, .WORKSPACE⟩ : Skill).source.priority
            then (⟨"s", "new", true, .WORKSPACE⟩ : Skill) else e))
    ∧ (getk ((SkillManagerState.empty.register
        ⟨"other", "x", true, .USER⟩ none none).registry) "s"
      = getk (SkillManagerState.empty).registry "s")
    ∧ (((SkillManagerState.empty.register
          ⟨"s", "b", true, .BUNDLED⟩ (some "db") (some 1)).register
          ⟨"s", "u", true, .USER⟩ (some "du") (some 2)).registry
        = ((SkillManagerState.empty.register
          ⟨"s", "u", true, .USER⟩ (some "du") (some 2)).register
          ⟨"s", "b", true, .BUNDLED⟩ (some "db") (some 1)).registry
      ∧ getk ((SkillManagerState.empty.register
          ⟨"s", "b", true, .BUNDLED⟩ (some "db") (some 1)).register
          ⟨"s", "u", true, .USER⟩ (some "du") (some 2)).registry "s"
        = some (if (⟨"s", "b", true, .BUNDLED⟩ : Skill).source.priority
              < (⟨"s", "u", true, .USER⟩ : Skill).source.priority
            then (⟨"s", "u", true, .USER⟩ : Skill)
            else (⟨"s", "b", true, .BUNDLED⟩ : Skill))) :=
  ⟨C7_register_precedence.1
      (SkillManagerState.empty.register ⟨"s", "old", true, .BUNDLED⟩
        none none)
      ⟨"s", "new", true, .WORKSPACE⟩ none none,
   C7_register_precedence.2.1 SkillManagerState.empty
      ⟨"other", "x", true, .USER⟩ none none "s" (by decide),
   C7_register_precedence.2.2 SkillManagerState.empty
      ⟨"s", "b", true, .BUNDLED⟩ ⟨"s", "u", true, .USER⟩
      (some "db") (some "du") (some 1) (some 2) rfl (by decide) rfl⟩

/-! ## Claim C8: registry-cache invariant -/

/-- The direction of the cache invariant the code maintains: every entry of
the mtime map and of the path map has a corresponding registry entry. -/
def SkillManagerState.mapsSubRegistry (m : SkillManagerState) : Bool :=
  m.mtimes.all (fun p => (getk m.registry p.1).isSome)
    && m.skillPaths.all (fun p => (getk m.registry p.1).isSome)

/-- The mutating operations of `SkillManager` (`register`, `unregister`,
`discover`, `refresh` = `clear_cache` + `discover`, `refresh_changed`). -/
inductive SkillOp where
  | reg (sk : Skill) (skillDir : Option String) (mtime : Option Nat)
  | unreg (name : String)
  | clear
  | disc (entries : List (Skill × String × Option Nat))
  | refreshFull (entries : List (Skill × String × Option Nat))
  | refreshCh (fs : FsView)

/-- Apply one manager operation. -/
def SkillManagerState.applyOp (m : SkillManagerState) :
    SkillOp → SkillManagerState
  | .reg sk d t => m.register sk d t
  | .unreg n => m.unregister n
  | .clear => m.clearCache
  | .disc es => m.discover es
  | .refreshFull es => m.clearCache.discover es
  | .refreshCh fs => (m.refreshChanged fs).1

theorem mapsSubRegistry_iff (m : SkillManagerState) :
    m.mapsSubRegistry = true ↔
    (∀ p ∈ m.mtimes, (getk m.registry p.1).isSome = true)
    ∧ (∀ p ∈ m.skillPaths, (getk m.registry p.1).isSome = true) := by
  simp [SkillManagerState.mapsSubRegistry, Bool.and_eq_true,
    List.all_eq_true]

theorem getk_setk_isSome {α : Type} (l : List (String × α)) (k k' : String)
    (v : α) (h : (getk l k').isSome = true) :
    (getk (setk l k v) k').isSome = true := by
  by_cases hk : k' = k
  · subst hk
    rw [getk_setk_self]
    rfl
  · rw [getk_setk_of_ne _ _ _ _ hk]
    exact h

theorem mem_setk {α : Type} (l : List (String × α)) (k : String) (v : α)
    (p : String × α) (h : p ∈ setk l k v) : p = (k, v) ∨ p ∈ l := by
  induction l with
  | nil =>
      simp only [setk] at h
      rcases List.mem_singleton.mp h with h'
      exact Or.inl h'
  | cons q rest ih =>
      obtain ⟨k0, v0⟩ := q
      by_cases h0 : k0 = k
      · simp only [setk, if_pos h0] at h
        rcases List.mem_cons.mp h with h' | h'
        · exact Or.inl h'
        · exact Or.inr (List.mem_cons.mpr (Or.inr h'))
      · simp only [setk, if_neg h0] at h
        rcases List.mem_cons.mp h with h' | h'
        · exact Or.inr (List.mem_cons.mpr (Or.inl h'))
        · rcases ih h' with h'' | h''
          · exact Or.inl h''
          · exact Or.inr (List.mem_cons.mpr (Or.inr h''))

theorem mem_remk {α : Type} (l : List (String × α)) (k : String)
    (p : String × α) (h : p ∈ remk l k) : p ∈ l ∧ p.1 ≠ k := by
  have := List.mem_filter.mp h
  exact ⟨this.1, by simpa using this.2⟩

theorem register_cases (m : SkillManagerState) (sk : Skill)
    (d : Option String) (t : Option Nat) :
    m.register sk d t = m
    ∨ m.register sk d t = { m with registry := setk m.registry sk.name sk }
    ∨ (∃ dd, m.register sk d t =
        { m with registry := setk m.registry sk.name sk,
                 skillPaths := setk m.skillPaths sk.name dd })
    ∨ (∃ dd tt, m.register sk d t =
        { m with registry := setk m.registry sk.name sk,
                 mtimes := setk m.mtimes sk.name tt,
                 skillPaths := setk m.skillPaths sk.name dd }) := by
  unfold SkillManagerState.register
  by_cases hs : (match getk m.registry sk.name with
      | none => true
      | some existing =>
          decide (existing.source.priority < sk.source.priority)) = true
  · rw [if_pos hs]
    cases d with
    | none => exact Or.inr (Or.inl rfl)
    | some dd =>
        cases t with
        | none => exact Or.inr (Or.inr (Or.inl ⟨dd, rfl⟩))
        | some tt => exact Or.inr (Or.inr (Or.inr ⟨dd, tt, rfl⟩))
  · rw [if_neg hs]
    exact Or.inl rfl

theorem register_mapsSub (m : SkillManagerState) (sk : Skill)
    (d : Option String) (t : Option Nat)
    (h : m.mapsSubRegistry = true) :
    (m.register sk d t).mapsSubRegistry = true := by
  rw [mapsSubRegistry_iff] at h
  obtain ⟨h1, h2⟩ := h
  rcases register_cases m sk d t with heq | heq | ⟨dd, heq⟩ | ⟨dd, tt, heq⟩
  · rw [heq, mapsSubRegistry_iff]
    exact ⟨h1, h2⟩
  · rw [heq, mapsSubRegistry_iff]
    exact ⟨fun p hp => getk_setk_isSome _ _ _ _ (h1 p hp),
           fun p hp => getk_setk_isSome _ _ _ _ (h2 p hp)⟩
  · rw [heq, mapsSubRegistry_iff]
    refine ⟨fun p hp => getk_setk_isSome _ _ _ _ (h1 p hp), ?_⟩
    intro p hp
    rcases mem_setk _ _ _ _ hp with hp' | hp'
    · rw [hp']
      rw [getk_setk_self]
      rfl
    · exact getk_setk_isSome _ _ _ _ (h2 p hp')
  · rw [heq, mapsSubRegistry_iff]
    constructor
    · intro p hp
      rcases mem_setk _ _ _ _ hp with hp' | hp'
      · rw [hp']
        rw [getk_setk_self]
        rfl
      · exact getk_setk_isSome _ _ _ _ (h1 p hp')
    · intro p hp
      rcases mem_setk _ _ _ _ hp with hp' | hp'
      · rw [hp']
        rw [getk_setk_self]
        rfl
      · exact getk_setk_isSome _ _ _ _ (h2 p hp')

theorem unregister_mapsSub (m : SkillManagerState) (n : String)
    (h : m.mapsSubRegistry = true) :
    (m.unregister n).mapsSubRegistry = true := by
  rw [mapsSubRegistry_iff] at h
  obtain ⟨h1, h2⟩ := h
  rw [SkillManagerState.unregister, mapsSubRegistry_iff]
  constructor
  · intro p hp
    obtain ⟨hmem, hne⟩ := mem_remk _ _ _ hp
    rw [getk_remk_of_ne _ _ _ hne]
    exact h1 p hmem
  · intro p hp
    obtain ⟨hmem, hne⟩ := mem_remk _ _ _ hp
    rw [getk_remk_of_ne _ _ _ hne]
    exact h2 p hmem

theorem clearCache_mapsSub (m : SkillManagerState) :
    m.clearCache.mapsSubRegistry = true := by
  rw [SkillManagerState.clearCache, mapsSubRegistry_iff]
  constructor <;> intro p hp <;> cases hp

theorem discover_mapsSub (entries : List (Skill × String × Option Nat)) :
    ∀ (m : SkillManagerState), m.mapsSubRegistry = true →
    (m.discover entries).mapsSubRegistry = true := by
  induction entries with
  | nil => intro m h; exact h
  | cons e rest ih =>
      intro m h
      have hstep := register_mapsSub m e.1 (some e.2.1) e.2.2 h
      exact ih _ hstep

theorem refreshChangedGo_mapsSub (fs : FsView)
    (paths : List (String × String)) :
    ∀ (m : SkillManagerState) (reloaded : List String),
    m.mapsSubRegistry = true →
    ((SkillManagerState.refreshChangedGo fs paths m reloaded).1
      ).mapsSubRegistry = true := by
  induction paths with
  | nil => intro m reloaded h; exact h
  | cons pr rest ih =>
      obtain ⟨name, dir⟩ := pr
      intro m reloaded h
      simp only [SkillManagerState.refreshChangedGo]
      by_cases hpres : fs.present dir = true
      · rw [if_pos hpres]
        by_cases hm : (getk m.mtimes name).getD 0 < fs.mtime dir
        · rw [if_pos hm]
          cases hreg : getk m.registry name with
          | none =>
              simp only [hreg]
              exact ih m reloaded h
          | some sk =>
              cases hload : fs.load dir sk.source with
              | none =>
                  simp only [hreg, hload]
                  exact ih m reloaded h
              | some newSk =>
                  simp only [hreg, hload]
                  refine ih _ _ ?_
                  rw [mapsSubRegistry_iff] at h
                  obtain ⟨h1, h2⟩ := h
                  rw [mapsSubRegistry_iff]
                  constructor
                  · intro p hp
                    rcases mem_setk _ _ _ _ hp with hp' | hp'
                    · rw [hp']
                      rw [getk_setk_self]
                      rfl
                    · exact getk_setk_isSome _ _ _ _ (h1 p hp')
                  · intro p hp
                    exact getk_setk_isSome _ _ _ _ (h2 p hp)
        · rw [if_neg hm]
          exact ih m reloaded h
      · rw [if_neg hpres]
        exact ih _ reloaded (unregister_mapsSub m name h)

theorem applyOp_mapsSub (m : SkillManagerState) (op : SkillOp)
    (h : m.mapsSubRegistry = true) :
    (m.applyOp op).mapsSubRegistry = true := by
  cases op with
  | reg sk d t => exact register_mapsSub m sk d t h
  | unreg n => exact unregister_mapsSub m n h
  | clear => exact clearCache_mapsSub m
  | disc es => exact discover_mapsSub es m h
  | refreshFull es =>
      exact discover_mapsSub es m.clearCache (clearCache_mapsSub m)
  | refreshCh fs =>
      exact refreshChangedGo_mapsSub fs m.skillPaths m [] h

/-- Claim C8 (amended): after any sequence of register, unregister,
discover, refresh and refresh_changed operations starting from an empty
manager, every entry of the mtime map and of the path map has a
corresponding registry entry, and `unregister` removes the name from all
three maps atomically.  The converse direction of the original claim is
false: a skill registered without a tracked directory (or whose SKILL.md
was missing at registration time) has a registry entry but no mtime or
path entry — see the counterexample. -/
theorem C8_registry_cache_invariant :
    (∀ (m : SkillManagerState) (op : SkillOp),
       m.mapsSubRegistry = true →
       (m.applyOp op).mapsSubRegistry = true)
    ∧ (∀ (ops : List SkillOp),
       (ops.foldl SkillManagerState.applyOp
          SkillManagerState.empty).mapsSubRegistry = true)
    ∧ (∀ (m : SkillManagerState) (n : String),
       getk (m.unregister n).registry n = none
       ∧ getk (m.unregister n).mtimes n = none
       ∧ getk (m.unregister n).skillPaths n = none) := by
  refine ⟨applyOp_mapsSub, ?_, ?_⟩
  · intro ops
    have hfold : ∀ (l : List SkillOp) (m : SkillManagerState),
        m.mapsSubRegistry = true →
        (l.foldl SkillManagerState.applyOp m).mapsSubRegistry = true := by
      intro l
      induction l with
      | nil => intro m h; exact h
      | cons op rest ih =>
          intro m h
          exact ih _ (applyOp_mapsSub m op h)
    exact hfold ops SkillManagerState.empty rfl
  · intro m n
    exact ⟨getk_remk_self _ _, getk_remk_self _ _, getk_remk_self _ _⟩

/-- Claim C8, counterexample to the claim as stated: `register` called
without a `skill_dir` (its default) adds a registry entry but neither an
mtime entry nor a path entry, so a registered skill name need not have
entries in both maps. -/
theorem C8_counterexample_register_without_dir :
    (getk ((SkillManagerState.empty.register ⟨"a", "d", true, .BUNDLED⟩
        none none).registry) "a").isSome = true
    ∧ getk ((SkillManagerState.empty.register ⟨"a", "d", true, .BUNDLED⟩
        none none).mtimes) "a" = none
    ∧ getk ((SkillManagerState.empty.register ⟨"a", "d", true, .BUNDLED⟩
        none none).skillPaths) "a" = none := by
  refine ⟨rfl, rfl, rfl⟩

/-- Claim C8 witness: the amended theorem applied at concrete inputs: one
preservation step on a populated manager, a concrete operation sequence
from the empty manager, and unregister removing all three entries. -/
theorem C8_registry_cache_invariant_witness :
    ((SkillManagerState.mk [("a", ⟨"a", "d", true, .BUNDLED⟩)] [("a", 3)]
        [("a", "dir")] []).applyOp (.unreg "a")).mapsSubRegistry = true
    ∧ ([SkillOp.reg ⟨"a", "d", true, .BUNDLED⟩ (some "dir") (some 1),
        SkillOp.reg ⟨"a", "d2", true, .USER⟩ (some "dir2") none,
        SkillOp.unreg "a",
        SkillOp.clear].foldl SkillManagerState.applyOp
          SkillManagerState.empty).mapsSubRegistry = true
    ∧ (getk ((SkillManagerState.mk [("a", ⟨"a", "d", true, .BUNDLED⟩)]
          [("a", 3)] [("a", "dir")] []).unregister "a").registry "a" = none
      ∧ getk ((SkillManagerState.mk [("a", ⟨"a", "d", true, .BUNDLED⟩)]
          [("a", 3)] [("a", "dir")] []).unregister "a").mtimes "a" = none
      ∧ getk ((SkillManagerState.mk [("a", ⟨"a", "d", true, .BUNDLED⟩)]
          [("a", 3)] [("a", "dir")] []).unregister "a").skillPaths "a"
        = none) :=
  ⟨C8_registry_cache_invariant.1
      (SkillManagerState.mk [("a", ⟨"a", "d", true, .BUNDLED⟩)] [("a", 3)]
        [("a", "dir")] []) (.unreg "a") (by decide),
   C8_registry_cache_invariant.2.1
      [SkillOp.reg ⟨"a", "d", true, .BUNDLED⟩ (some "dir") (some 1),
       SkillOp.reg ⟨"a", "d2", true, .USER⟩ (some "dir2") none,
       SkillOp.unreg "a",
       SkillOp.clear],
   C8_registry_cache_invariant.2.2
      (SkillManagerState.mk [("a", ⟨"a", "d", true, .BUNDLED⟩)] [("a", 3)]
        [("a", "dir")] []) "a"⟩

/-! ## Session manager (src/miniclaw/session/manager.py)

Wall-clock time is passed explicitly as a `Nat`; disk persistence is the
`disk` association list (`_session_file` / `_save_session` /
`_load_session`; a corrupt or missing file is modelled by the key being
absent, both fall back to a fresh state); the asyncio locks are the
`locks` map from chat id to a locked flag (the manager only ever acquires
a lock it has just observed unlocked, non-blockingly). -/

/-- Membership test on a list of chat ids (the `_busy` set). -/
def memb (x : String) : List String → Bool
  | [] => false
  | y :: rest => if y = x then true else memb x rest

/-- Removal of a chat id from the busy set (`set.discard`). -/
def remStr (x : String) : List String → List String
  | [] => []
  | y :: rest => if y = x then remStr x rest else y :: remStr x rest

theorem memb_remStr_self (x : String) (l : List String) :
    memb x (remStr x l) = false := by
  induction l with
  | nil => rfl
  | cons y rest ih =>
      by_cases h : y = x <;> simp [remStr, memb, h, ih]

theorem remStr_remStr (x : String) (l : List String) :
    remStr x (remStr x l) = remStr x l := by
  induction l with
  | nil => rfl
  | cons y rest ih =>
      by_cases h : y = x <;> simp [remStr, h, ih]

theorem memb_append_right (x : String) (l : List String) :
    memb x (l ++ [x]) = true := by
  induction l with
  | nil => simp [memb]
  | cons y rest ih =>
      by_cases h : y = x <;> simp [memb, h, ih]

/-- Per-session state (`SessionState` dataclass). -/
structure Session where
  chatId : String
  createdAt : Nat
  lastActivity : Nat
  containerId : Option String
  messages : List (String × String × Nat)
  context : List (String × String)
  deriving DecidableEq

/-- A fresh session (`SessionState(chat_id=chat_id)`). -/
def Session.fresh (chatId : String) (now : Nat) : Session :=
  ⟨chatId, now, now, none, [], []⟩

/-- Mirror of `SessionState.is_expired`: wall-clock time since last
activity exceeds the TTL (times as naturals, clock assumed monotone). -/
def Session.isExpired (s : Session) (ttl now : Nat) : Bool :=
  decide (ttl < now - s.lastActivity)

/-- The mutable maps of a `SessionManager` (`_sessions`, `_locks`,
`_busy`) and the persisted session files. -/
structure SessionManagerState where
  sessions : List (String × Session)
  locks : List (String × Bool)
  busy : List String
  disk : List (String × Session)
  deriving DecidableEq

/-- The user-facing busy message (`BUSY_MESSAGE`; the constant's exact
text is the Spanish sentence of the source). -/
def SessionManagerState.BUSY : String :=
  "Ya estoy trabajando en algo. Espera a que termine."

/-- Mirror of `SessionManager.is_busy`. -/
def SessionManagerState.isBusy (st : SessionManagerState)
    (chatId : String) : Bool :=
  memb chatId st.busy

/-- State effect of `SessionManager.get_lock`: creates an unlocked lock on
first reference. -/
def SessionManagerState.ensureLock (st : SessionManagerState)
    (chatId : String) : SessionManagerState :=
  match getk st.locks chatId with
  | some _ => st
  | none => { st with locks := setk st.locks chatId false }

/-- The `lock.locked()` read on the lock `get_lock` returned. -/
def SessionManagerState.lockLocked (st : SessionManagerState)
    (chatId : String) : Bool :=
  match getk st.locks chatId with
  | some locked => locked
  | none => false

/-- The session value `SessionManager.get_session` returns: loaded
session, else disk record, else a fresh state. -/
def SessionManagerState.loadedSession (st : SessionManagerState)
    (chatId : String) (now : Nat) : Session :=
  match getk st.sessions chatId with
  | some s => s
  | none =>
      match getk st.disk chatId with
      | some d => d
      | none => Session.fresh chatId now

/-- State effect of `SessionManager.get_session`: caches the session in
memory. -/
def SessionManagerState.ensureSession (st : SessionManagerState)
    (chatId : String) (now : Nat) : SessionManagerState :=
  match getk st.sessions chatId with
  | some _ => st
  | none =>
      let s := st.loadedSession chatId now
      { st with sessions := setk st.sessions chatId s }

/-- Mirror of `SessionManager.acquire`: non-blocking; busy or locked
returns `(False, BUSY_MESSAGE)` immediately; success acquires the lock,
marks the chat busy, loads the session (`get_session`) and touches it. -/
def SessionManagerState.acquire (st : SessionManagerState)
    (chatId : String) (now : Nat) :
    (Bool × Option String) × SessionManagerState :=
  if st.isBusy chatId then ((false, some SessionManagerState.BUSY), st)
  else
    let st1 := st.ensureLock chatId
    if st1.lockLocked chatId then
      ((false, some SessionManagerState.BUSY), st1)
    else
      let st2 := { st1 with locks := setk st1.locks chatId true,
                            busy := st1.busy ++ [chatId] }
      let st3 := st2.ensureSession chatId now
      let s0 := st2.loadedSession chatId now
      let touched := { s0 with lastActivity := now }
      ((true, none),
       { st3 with sessions := setk st3.sessions chatId touched })

/-- Mirror of `SessionManager.release`: discard the busy flag, release the
lock if held, and persist the session to disk if it is loaded. -/
def SessionManagerState.release (st : SessionManagerState)
    (chatId : String) : SessionManagerState :=
  let st1 := { st with busy := remStr chatId st.busy }
  let st2 :=
    match getk st1.locks chatId with
    | some true => { st1 with locks := setk st1.locks chatId false }
    | some false => st1
    | none => st1
  match getk st2.sessions chatId with
  | some s => { st2 with disk := setk st2.disk chatId s }
  | none => st2

/-- Mirror of `SessionManager.destroy_session`: remove the in-memory
state, the lock, the busy flag and the disk file, then destroy the sandbox
container, which may raise (`sandboxFail` oracle); the boolean is false
when the destroy raised (after the state was already mutated). -/
def SessionManagerState.destroySession (st : SessionManagerState)
    (chatId : String) (sandboxFail : String → Bool) :
    SessionManagerState × Bool :=
  ({ st with sessions := remk st.sessions chatId,
             locks := remk st.locks chatId,
             busy := remStr chatId st.busy,
             disk := remk st.disk chatId },
   ! sandboxFail chatId)

/-- The iteration of `SessionManager.cleanup_expired` over the snapshot of
`_sessions.keys()`: destroy each loaded expired session; a raise from
`destroy_session` propagates out of the sweep immediately (`.error`),
abandoning the remaining ids. -/
def SessionManagerState.cleanupGo (sandboxFail : String → Bool)
    (ttl now : Nat) :
    List String → SessionManagerState → Nat →
    SessionManagerState × Except Unit Nat
  | [], st, count => (st, .ok count)
  | chatId :: rest, st, count =>
      match getk st.sessions chatId with
      | none => SessionManagerState.cleanupGo sandboxFail ttl now rest st
          count
      | some s =>
          if s.isExpired ttl now then
            match st.destroySession chatId sandboxFail with
            | (st', true) =>
                SessionManagerState.cleanupGo sandboxFail ttl now rest st'
                  (count + 1)
            | (st', false) => (st', .error ())
          else SessionManagerState.cleanupGo sandboxFail ttl now rest st
            count

/-- Mirror of `SessionManager.cleanup_expired`. -/
def SessionManagerState.cleanupExpired (st : SessionManagerState)
    (sandboxFail : String → Bool) (ttl now : Nat) :
    SessionManagerState × Except Unit Nat :=
  SessionManagerState.cleanupGo sandboxFail ttl now
    (st.sessions.map Prod.fst) st 0

/-- One iteration of `SessionManager._cleanup_loop`: the sweep runs and
any exception is swallowed (`except Exception: pass`), keeping the
partially-mutated state. -/
def SessionManagerState.cleanupSweepCaught (st : SessionManagerState)
    (sandboxFail : String → Bool) (ttl now : Nat) : SessionManagerState :=
  (st.cleanupExpired sandboxFail ttl now).1

theorem ensureLock_sessions (st : SessionManagerState) (c : String) :
    (st.ensureLock c).sessions = st.sessions := by
  unfold SessionManagerState.ensureLock
  cases getk st.locks c <;> rfl

theorem ensureLock_busy (st : SessionManagerState) (c : String) :
    (st.ensureLock c).busy = st.busy := by
  unfold SessionManagerState.ensureLock
  cases getk st.locks c <;> rfl

theorem ensureLock_disk (st : SessionManagerState) (c : String) :
    (st.ensureLock c).disk = st.disk := by
  unfold SessionManagerState.ensureLock
  cases getk st.locks c <;> rfl

theorem ensureSession_locks (st : SessionManagerState) (c : String)
    (now : Nat) : (st.ensureSession c now).locks = st.locks := by
  unfold SessionManagerState.ensureSession
  cases getk st.sessions c <;> rfl

theorem ensureSession_busy (st : SessionManagerState) (c : String)
    (now : Nat) : (st.ensureSession c now).busy = st.busy := by
  unfold SessionManagerState.ensureSession
  cases getk st.sessions c <;> rfl

theorem ensureSession_disk (st : SessionManagerState) (c : String)
    (now : Nat) : (st.ensureSession c now).disk = st.disk := by
  unfold SessionManagerState.ensureSession
  cases getk st.sessions c <;> rfl

/-- The state after a successful `acquire`: busy contains the chat, its
lock is held, and its session is loaded. -/
theorem acquire_success_state (st : SessionManagerState) (c : String)
    (now : Nat) (h : ((st.acquire c now).1).1 = true) :
    (st.acquire c now).1 = (true, none)
    ∧ memb c (st.acquire c now).2.busy = true
    ∧ getk (st.acquire c now).2.locks c = some true
    ∧ (getk (st.acquire c now).2.sessions c).isSome = true := by
  unfold SessionManagerState.acquire at h ⊢
  by_cases hb : st.isBusy c = true
  · rw [if_pos hb] at h
    simp at h
  · rw [if_neg hb] at h ⊢
    by_cases hl : (st.ensureLock c).lockLocked c = true
    · simp only [hl, if_true] at h
      simp at h
    · simp only [hl, if_false] at h ⊢
      simp only [Bool.not_eq_true] at hl
      rw [if_neg (by simp [hl])]
      refine ⟨rfl, ?_, ?_, ?_⟩
      · simp [ensureSession_busy, ensureLock_busy, memb_append_right]
      · simp [ensureSession_locks, getk_setk_self]
      · simp [getk_setk_self]

/-- Component equations for `release`. -/
theorem release_sessions (st : SessionManagerState) (c : String) :
    (st.release c).sessions = st.sessions := by
  unfold SessionManagerState.release
  cases hl : getk st.locks c with
  | none => cases hs : getk st.sessions c <;> simp [hl, hs]
  | some b =>
      cases b <;> cases hs : getk st.sessions c <;> simp [hl, hs]

theorem release_busy_eq (st : SessionManagerState) (c : String) :
    (st.release c).busy = remStr c st.busy := by
  unfold SessionManagerState.release
  cases hl : getk st.locks c with
  | none => cases hs : getk st.sessions c <;> simp [hl, hs]
  | some b =>
      cases b <;> cases hs : getk st.sessions c <;> simp [hl, hs]

theorem release_locks_eq (st : SessionManagerState) (c : String) :
    (st.release c).locks =
      match getk st.locks c with
      | some true => setk st.locks c false
      | some false => st.locks
      | none => st.locks := by
  unfold SessionManagerState.release
  cases hl : getk st.locks c with
  | none => cases hs : getk st.sessions c <;> simp [hl, hs]
  | some b =>
      cases b <;> cases hs : getk st.sessions c <;> simp [hl, hs]

theorem release_disk_eq (st : SessionManagerState) (c : String) :
    (st.release c).disk =
      match getk st.sessions c with
      | some s => setk st.disk c s
      | none => st.disk := by
  unfold SessionManagerState.release
  cases hl : getk st.locks c with
  | none => cases hs : getk st.sessions c <;> simp [hl, hs]
  | some b =>
      cases b <;> cases hs : getk st.sessions c <;> simp [hl, hs]

theorem ext_of_components (a b : SessionManagerState)
    (h1 : a.sessions = b.sessions) (h2 : a.locks = b.locks)
    (h3 : a.busy = b.busy) (h4 : a.disk = b.disk) : a = b := by
  cases a
  cases b
  simp_all

/-- An acquire on a busy chat returns the busy refusal and leaves the
state unchanged. -/
theorem acquire_busy (st : SessionManagerState) (c : String) (now : Nat)
    (h : st.isBusy c = true) :
    st.acquire c now = ((false, some SessionManagerState.BUSY), st) := by
  unfold SessionManagerState.acquire
  rw [if_pos h]

/-- An acquire on a chat that is not busy and whose lock is not held
returns success. -/
theorem acquire_free_result (st : SessionManagerState) (c : String)
    (now : Nat) (h1 : st.isBusy c = false)
    (h2 : (st.ensureLock c).lockLocked c = false) :
    (st.acquire c now).1 = (true, none) := by
  unfold SessionManagerState.acquire
  simp only [h1, h2, Bool.false_eq_true, if_false]

/-! ## Claim C4: per-chat mutual exclusion -/

/-- Claim C4: after `acquire(X)` returns (true, null), a subsequent
`acquire(X)` returns (false, the busy message) without waiting and without
changing state, until `release(X)`; `release(X)` clears the busy flag,
releases the lock (held after a successful acquire), and persists the
loaded session state to disk; after release a subsequent `acquire(X)`
succeeds. -/
theorem C4_session_mutual_exclusion :
    ∀ (st : SessionManagerState) (c : String) (now now2 now3 : Nat),
    ((st.acquire c now).1).1 = true →
    ((st.acquire c now).2.acquire c now2
      = ((false, some SessionManagerState.BUSY), (st.acquire c now).2))
    ∧ (((st.acquire c now).2.release c).isBusy c = false)
    ∧ (getk ((st.acquire c now).2.release c).locks c = some false)
    ∧ (∃ s, getk ((st.acquire c now).2.release c).sessions c = some s
        ∧ getk ((st.acquire c now).2.release c).disk c = some s)
    ∧ ((((st.acquire c now).2.release c).acquire c now3).1
        = (true, none)) := by
  intro st c now now2 now3 h
  obtain ⟨hres, hbusy, hlock, hsess⟩ := acquire_success_state st c now h
  refine ⟨?_, ?_, ?_, ?_, ?_⟩
  · exact acquire_busy (st.acquire c now).2 c now2 hbusy
  · show memb c ((st.acquire c now).2.release c).busy = false
    rw [release_busy_eq]
    exact memb_remStr_self c (st.acquire c now).2.busy
  · rw [release_locks_eq, hlock]
    exact getk_setk_self _ _ _
  · obtain ⟨s, hs⟩ := Option.isSome_iff_exists.mp hsess
    refine ⟨s, ?_, ?_⟩
    · rw [release_sessions]
      exact hs
    · rw [release_disk_eq, hs]
      exact getk_setk_self _ _ _
  · have hl2 : getk (((st.acquire c now).2.release c)).locks c
        = some false := by
      rw [release_locks_eq, hlock]
      exact getk_setk_self _ _ _
    apply acquire_free_result
    · show memb c (((st.acquire c now).2.release c)).busy = false
      rw [release_busy_eq]
      exact memb_remStr_self c (st.acquire c now).2.busy
    · have hensure : (((st.acquire c now).2.release c)).ensureLock c
          = ((st.acquire c now).2.release c) := by
        unfold SessionManagerState.ensureLock
        rw [hl2]
      rw [hensure]
      unfold SessionManagerState.lockLocked
      rw [hl2]

/-- Claim C4 witness: the theorem applied to an empty manager: the first
acquire of chat "x" succeeds (discharging the hypothesis), the second
acquire is refused with the busy message, release persists, and the third
acquire succeeds. -/
theorem C4_session_mutual_exclusion_witness :
    (((SessionManagerState.mk [] [] [] []).acquire "x" 5).1).1 = true
    ∧ ((((SessionManagerState.mk [] [] [] []).acquire "x" 5).2.acquire
        "x" 6
      = ((false, some SessionManagerState.BUSY),
         ((SessionManagerState.mk [] [] [] []).acquire "x" 5).2))
    ∧ (((((SessionManagerState.mk [] [] [] []).acquire "x" 5).2.release
        "x")).isBusy "x" = false)
    ∧ (getk (((SessionManagerState.mk [] [] [] []).acquire
        "x" 5).2.release "x").locks "x" = some false)
    ∧ (∃ s, getk (((SessionManagerState.mk [] [] [] []).acquire
          "x" 5).2.release "x").sessions "x" = some s
        ∧ getk (((SessionManagerState.mk [] [] [] []).acquire
          "x" 5).2.release "x").disk "x" = some s)
    ∧ (((((SessionManagerState.mk [] [] [] []).acquire "x" 5).2.release
        "x").acquire "x" 7).1 = (true, none))) :=
  ⟨by decide,
   C4_session_mutual_exclusion (SessionManagerState.mk [] [] [] []) "x"
     5 6 7 (by decide)⟩

/-! ## Claim C10: release is safe and idempotent -/

/-- Claim C10: `release(chat_id)` is safe and idempotent for every chat id
and manager state (in particular without a prior acquire; its totality in
this model reflects that no branch raises): it leaves the session map
unchanged, it releases the lock only when that lock is held and never
creates one (absent stays absent, present becomes unlocked), it writes the
session to disk only when that session is loaded in memory, it clears the
busy flag, and releasing twice equals releasing once. -/
theorem C10_release_idempotent_safe :
    ∀ (st : SessionManagerState) (c : String),
    ((st.release c).sessions = st.sessions)
    ∧ (getk (st.release c).locks c
        = (getk st.locks c).map (fun _ => false))
    ∧ ((st.release c).disk = match getk st.sessions c with
        | some s => setk st.disk c s
        | none => st.disk)
    ∧ (memb c (st.release c).busy = false)
    ∧ ((st.release c).release c = st.release c) := by
  intro st c
  refine ⟨release_sessions st c, ?_, release_disk_eq st c, ?_, ?_⟩
  · rw [release_locks_eq]
    cases hl : getk st.locks c with
    | none => simp [hl]
    | some b => cases b <;> simp [hl, getk_setk_self]
  · rw [release_busy_eq]
    exact memb_remStr_self c st.busy
  · apply ext_of_components
    · rw [release_sessions, release_sessions]
    · rw [release_locks_eq (st.release c) c]
      have hl2 : getk (st.release c).locks c
          = (getk st.locks c).map (fun _ => false) := by
        rw [release_locks_eq]
        cases hl : getk st.locks c with
        | none => simp [hl]
        | some b => cases b <;> simp [hl, getk_setk_self]
      cases hl : getk st.locks c with
      | none =>
          rw [hl] at hl2
          simp only [Option.map_none'] at hl2
          rw [hl2]
      | some b =>
          rw [hl] at hl2
          simp only [Option.map_some'] at hl2
          rw [hl2]
    · rw [release_busy_eq (st.release c) c, release_busy_eq st c,
        remStr_remStr]
    · rw [release_disk_eq (st.release c) c, release_sessions st c]
      cases hs : getk st.sessions c with
      | none => rfl
      | some s =>
          rw [release_disk_eq st c, hs]
          show setk (setk st.disk c s) c s = setk st.disk c s
          exact setk_setk_self st.disk c s s

/-! ## Claim C9: the expiry sweep and failure during destroy -/

/-- A key bound in the map occurs in the key list. -/
theorem mem_keys_of_getk_some {α : Type} (l : List (String × α))
    (k : String) (v : α) (h : getk l k = some v) : k ∈ l.map Prod.fst := by
  induction l with
  | nil => simp [getk] at h
  | cons p rest ih =>
      obtain ⟨k', v'⟩ := p
      by_cases hk : k' = k
      · simp [hk]
      · simp only [getk, if_neg hk] at h
        exact List.mem_cons_of_mem _ (ih h)

/-- A key occurring in the key list is bound in the map. -/
theorem getk_isSome_of_mem_keys {α : Type} (l : List (String × α))
    (k : String) (h : k ∈ l.map Prod.fst) : (getk l k).isSome := by
  obtain ⟨p, hp, hfst⟩ := List.mem_map.mp h
  rw [← hfst]
  exact getk_isSome_of_mem l p hp

/-- A chat id with no loaded session still has none after any portion of
the sweep: the sweep only removes sessions. -/
theorem cleanupGo_none_mono (fail : String → Bool) (ttl now : Nat) :
    ∀ (ids : List String) (st : SessionManagerState) (count : Nat)
      (x : String), getk st.sessions x = none →
    getk (SessionManagerState.cleanupGo fail ttl now ids st
      count).1.sessions x = none := by
  intro ids
  induction ids with
  | nil => intro st count x hx; exact hx
  | cons a rest ih =>
      intro st count x hx
      cases hga : getk st.sessions a with
      | none =>
          simp only [SessionManagerState.cleanupGo, hga]
          exact ih st count x hx
      | some s =>
          cases hexp : s.isExpired ttl now with
          | false =>
              simp [SessionManagerState.cleanupGo, hga, hexp]
              exact ih st count x hx
          | true =>
              cases hfa : fail a with
              | false =>
                  simp [SessionManagerState.cleanupGo, hga, hexp,
                    SessionManagerState.destroySession, hfa]
                  apply ih
                  show getk (remk st.sessions a) x = none
                  by_cases hxa : x = a
                  · rw [hxa]
                    exact getk_remk_self st.sessions a
                  · rw [getk_remk_of_ne st.sessions a x hxa]
                    exact hx
              | true =>
                  simp [SessionManagerState.cleanupGo, hga, hexp,
                    SessionManagerState.destroySession, hfa]
                  show getk (remk st.sessions a) x = none
                  by_cases hxa : x = a
                  · rw [hxa]
                    exact getk_remk_self st.sessions a
                  · rw [getk_remk_of_ne st.sessions a x hxa]
                    exact hx

/-- When no destroy in the sweep fails, the sweep completes with ok and
every expired loaded session among the visited ids is destroyed. -/
theorem cleanupGo_clean (fail : String → Bool) (ttl now : Nat) :
    ∀ (ids : List String) (st : SessionManagerState) (count : Nat),
    (∀ id ∈ ids, fail id = false) →
    ∃ st' n,
      SessionManagerState.cleanupGo fail ttl now ids st count
        = (st', .ok n)
      ∧ ∀ c ∈ ids, ∀ s, getk st.sessions c = some s →
          s.isExpired ttl now = true → getk st'.sessions c = none := by
  intro ids
  induction ids with
  | nil =>
      intro st count hf
      exact ⟨st, count, rfl, by intro c hc; cases hc⟩
  | cons a rest ih =>
      intro st count hf
      cases hga : getk st.sessions a with
      | none =>
          obtain ⟨st', n, heq, hall⟩ :=
            ih st count (fun id hid => hf id (List.mem_cons_of_mem a hid))
          refine ⟨st', n, ?_, ?_⟩
          · simp only [SessionManagerState.cleanupGo, hga]
            exact heq
          · intro c hc s hcs hexp
            rcases List.mem_cons.mp hc with hca | hcr
            · rw [hca] at hcs
              rw [hga] at hcs
              cases hcs
            · exact hall c hcr s hcs hexp
      | some s0 =>
          cases hexp0 : s0.isExpired ttl now with
          | false =>
              obtain ⟨st', n, heq, hall⟩ :=
                ih st count
                  (fun id hid => hf id (List.mem_cons_of_mem a hid))
              refine ⟨st', n, ?_, ?_⟩
              · simp [SessionManagerState.cleanupGo, hga, hexp0]
                exact heq
              · intro c hc s hcs hexp
                rcases List.mem_cons.mp hc with hca | hcr
                · rw [hca] at hcs
                  rw [hga] at hcs
                  injection hcs with hss
                  rw [← hss] at hexp
                  rw [hexp] at hexp0
                  cases hexp0
                · exact hall c hcr s hcs hexp
          | true =>
              have hfa : fail a = false := hf a (List.mem_cons_self a rest)
              have hstep : SessionManagerState.cleanupGo fail ttl now
                  (a :: rest) st count
                  = SessionManagerState.cleanupGo fail ttl now rest
                    (st.destroySession a fail).1 (count + 1) := by
                simp [SessionManagerState.cleanupGo, hga, hexp0,
                  SessionManagerState.destroySession, hfa]
              obtain ⟨st', n, heq, hall⟩ :=
                ih (st.destroySession a fail).1 (count + 1)
                  (fun id hid => hf id (List.mem_cons_of_mem a hid))
              refine ⟨st', n, by rw [hstep]; exact heq, ?_⟩
              intro c hc s hcs hexp
              by_cases hca : c = a
              · have h1 : getk (st.destroySession a fail).1.sessions c
                    = none := by
                  rw [hca]
                  show getk (remk st.sessions a) a = none
                  exact getk_remk_self st.sessions a
                have hmono := cleanupGo_none_mono fail ttl now rest
                  (st.destroySession a fail).1 (count + 1) c h1
                rw [heq] at hmono
                exact hmono
              · have h1 : getk (st.destroySession a fail).1.sessions c
                    = some s := by
                  show getk (remk st.sessions a) c = some s
                  rw [getk_remk_of_ne st.sessions a c hca]
                  exact hcs
                rcases List.mem_cons.mp hc with h2 | h2
                · exact absurd h2 hca
                · exact hall c h2 s h1 hexp

/-- Claim C9 (amended): the expiry sweep has no per-session exception
handling. (i) When no destroy fails, the sweep returns ok and destroys
every expired loaded session. (ii) When the id being examined is expired
and its destroy raises, the sweep stops at once with the error: only that
session has been removed (removal happens before the raise) and the
remaining ids of the snapshot are never examined. (iii) Once the failing
session is gone, a sweep in which no other id fails completes and
destroys every expired session - recovery happens across sweeps via the
cleanup loop's catch, not inside one sweep. -/
theorem C9_cleanup_sweep_failure :
    (∀ (st : SessionManagerState) (fail : String → Bool) (ttl now : Nat),
      (∀ id, fail id = false) →
      ∃ st' n, st.cleanupExpired fail ttl now = (st', .ok n)
        ∧ ∀ c s, getk st.sessions c = some s →
            s.isExpired ttl now = true → getk st'.sessions c = none)
    ∧ (∀ (st : SessionManagerState) (fail : String → Bool)
        (ttl now : Nat) (c : String) (s : Session) (rest : List String)
        (count : Nat),
      getk st.sessions c = some s → s.isExpired ttl now = true →
      fail c = true →
      SessionManagerState.cleanupGo fail ttl now (c :: rest) st count
          = ((st.destroySession c fail).1, .error ())
        ∧ getk (st.destroySession c fail).1.sessions c = none)
    ∧ (∀ (st : SessionManagerState) (fail : String → Bool)
        (ttl now : Nat) (c : String),
      getk st.sessions c = none → (∀ id, id ≠ c → fail id = false) →
      ∃ st' n, st.cleanupExpired fail ttl now = (st', .ok n)
        ∧ ∀ d s, getk st.sessions d = some s →
            s.isExpired ttl now = true → getk st'.sessions d = none) := by
  refine ⟨?_, ?_, ?_⟩
  · intro st fail ttl now hf
    obtain ⟨st', n, heq, hall⟩ := cleanupGo_clean fail ttl now
      (st.sessions.map Prod.fst) st 0 (fun id _ => hf id)
    refine ⟨st', n, heq, ?_⟩
    intro c s hcs hexp
    exact hall c (mem_keys_of_getk_some st.sessions c s hcs) s hcs hexp
  · intro st fail ttl now c s rest count hcs hexp hfc
    constructor
    · simp [SessionManagerState.cleanupGo, hcs, hexp,
        SessionManagerState.destroySession, hfc]
    · show getk (remk st.sessions c) c = none
      exact getk_remk_self st.sessions c
  · intro st fail ttl now c hc hfo
    have hf : ∀ id ∈ st.sessions.map Prod.fst, fail id = false := by
      intro id hid
      apply hfo
      intro hidc
      have hs := getk_isSome_of_mem_keys st.sessions id hid
      rw [hidc, hc] at hs
      cases hs
    obtain ⟨st', n, heq, hall⟩ := cleanupGo_clean fail ttl now
      (st.sessions.map Prod.fst) st 0 hf
    refine ⟨st', n, heq, ?_⟩
    intro d s hds hexp
    exact hall d (mem_keys_of_getk_some st.sessions d s hds) s hds hexp

/-- Claim C9 counterexample: a manager with two expired sessions "a" and
"b" where destroying "a" raises: the sweep ends in the error after
removing only "a"; the other expired session "b" is not destroyed in
that sweep, refuting the claimed per-session tolerance. -/
theorem C9_counterexample_abort_skips_rest :
    ((SessionManagerState.mk
        [("a", ⟨"a", 0, 0, none, [], []⟩),
         ("b", ⟨"b", 0, 0, none, [], []⟩)] [] [] []).cleanupExpired
        (fun id => id == "a") 10 100).2 = .error ()
    ∧ getk ((SessionManagerState.mk
        [("a", ⟨"a", 0, 0, none, [], []⟩),
         ("b", ⟨"b", 0, 0, none, [], []⟩)] [] [] []).cleanupExpired
        (fun id => id == "a") 10 100).1.sessions "b"
        = some ⟨"b", 0, 0, none, [], []⟩
    ∧ (⟨"b", 0, 0, none, [], []⟩ : Session).isExpired 10 100 = true :=
  ⟨rfl, rfl, rfl⟩

/-- Claim C9 witness: the theorem applied to concrete managers: a
no-failure sweep over one expired session removes it and returns ok; an
aborting sweep whose head id is expired and failing; and a clean sweep of
the state in which the failing id is absent. -/
theorem C9_cleanup_sweep_failure_witness :
    (∃ st' n, (SessionManagerState.mk
        [("a", ⟨"a", 0, 0, none, [], []⟩)] [] [] []).cleanupExpired
        (fun _ => false) 10 100 = (st', .ok n)
      ∧ ∀ c s, getk (SessionManagerState.mk
          [("a", ⟨"a", 0, 0, none, [], []⟩)] [] [] []).sessions c
            = some s →
          s.isExpired 10 100 = true → getk st'.sessions c = none)
    ∧ (SessionManagerState.cleanupGo (fun id => id == "a") 10 100
        ("a" :: ["b"])
        (SessionManagerState.mk
          [("a", ⟨"a", 0, 0, none, [], []⟩),
           ("b", ⟨"b", 0, 0, none, [], []⟩)] [] [] []) 0
        = (((SessionManagerState.mk
          [("a", ⟨"a", 0, 0, none, [], []⟩),
           ("b", ⟨"b", 0, 0, none, [], []⟩)] [] [] []).destroySession "a"
            (fun id => id == "a")).1, .error ())
      ∧ getk ((SessionManagerState.mk
          [("a", ⟨"a", 0, 0, none, [], []⟩),
           ("b", ⟨"b", 0, 0, none, [], []⟩)] [] [] []).destroySession "a"
            (fun id => id == "a")).1.sessions "a" = none)
    ∧ (∃ st' n, (SessionManagerState.mk
        [("b", ⟨"b", 0, 0, none, [], []⟩)] [] [] []).cleanupExpired
        (fun id => id == "a") 10 100 = (st', .ok n)
      ∧ ∀ d s, getk (SessionManagerState.mk
          [("b", ⟨"b", 0, 0, none, [], []⟩)] [] [] []).sessions d
            = some s →
          s.isExpired 10 100 = true → getk st'.sessions d = none) :=
  ⟨C9_cleanup_sweep_failure.1
    (SessionManagerState.mk [("a", ⟨"a", 0, 0, none, [], []⟩)] [] [] [])
    (fun _ => false) 10 100 (fun _ => rfl),
   C9_cleanup_sweep_failure.2.1
    (SessionManagerState.mk
      [("a", ⟨"a", 0, 0, none, [], []⟩),
       ("b", ⟨"b", 0, 0, none, [], []⟩)] [] [] [])
    (fun id => id == "a") 10 100 "a" ⟨"a", 0, 0, none, [], []⟩ ["b"] 0
    rfl rfl rfl,
   C9_cleanup_sweep_failure.2.2
    (SessionManagerState.mk [("b", ⟨"b", 0, 0, none, [], []⟩)] [] [] [])
    (fun id => id == "a") 10 100 "a" rfl
    (fun id hne => beq_eq_false_iff_ne.mpr hne)⟩
